import Mathlib

/-!
Verification of the sparkrun model-distribution and pending-operation core.

This file gives a shallow embedding, in Lean, of the Python modules
`sparkrun/models/download.py`, `sparkrun/models/distribute.py`,
`sparkrun/models/sync.py`, `sparkrun/orchestration/sudo.py` and
`sparkrun/pending_ops.py`, together with theorems about the embedded
definitions.

Modelling conventions:
* Python strings are Lean `String`s.  Because several core-library string
  operations do not reduce inside the kernel, all string manipulation used
  here (substring test, suffix test, lower-casing, replacement, trimming,
  lexicographic comparison) is implemented by structural recursion over
  `List Char`, matching Python semantics (comparison is codepoint-wise
  lexicographic, `str.lower` maps characters pointwise).
* The on-disk HuggingFace cache is modelled by an explicit in-memory
  filesystem `FS`: a list of files (path components plus text content) and a
  list of directories.  Paths are lists of components; the cache root is a
  single opaque component.
* The SSH / rsync remote executor (`sparkrun/orchestration/ssh.py` and
  `sparkrun/orchestration/primitives.py`) is not part of the sources under
  verification; it is an external collaborator.  Its operations are
  modelled from the spec as oracle-driven functions over a `World` of
  per-host outcomes, recording an explicit trace of side-effecting calls.
  A dry run performs no call and yields synthetic successes.
* The embedded shell scripts are opaque programs identified by name and
  template parameters; they are modelled by the inductive `BuiltScript`.
* Exceptions: Python code under verification catches `OSError`
  (resp. logs and returns) — fallibility of a primitive is modelled by an
  explicit Boolean outcome parameter, and the catching wrapper is a total
  function, mirroring the `try/except` in the source.
-/

namespace SparkrunProof

/-! ### Character-list string primitives -/

/-- Does `p` occur at the start of `l`?  (Helper for substring search.) -/
def startsSeg : List Char → List Char → Bool
  | [], _ => true
  | _ :: _, [] => false
  | a :: as, b :: bs => a == b && startsSeg as bs

/-- Does `needle` occur contiguously anywhere in `hay`?
Python `needle in hay` on strings. -/
def infixCh (needle : List Char) : List Char → Bool
  | [] => needle.isEmpty
  | c :: rest => startsSeg needle (c :: rest) || infixCh needle rest

/-- Python `needle in hay` for strings. -/
def containsSub (hay needle : String) : Bool :=
  infixCh needle.data hay.data

/-- Python `s.endswith(suffix)`. -/
def endsWithStr (s suffix : String) : Bool :=
  startsSeg suffix.data.reverse s.data.reverse

/-- Python `s.lower()` (pointwise, as for ASCII identifiers). -/
def lowerStr (s : String) : String :=
  String.mk (s.data.map Char.toLower)

/-- Python `s.replace(c, repl)` for a one-character pattern. -/
def replaceCh (c : Char) (repl : List Char) : List Char → List Char
  | [] => []
  | x :: xs => if x == c then repl ++ replaceCh c repl xs else x :: replaceCh c repl xs

/-- Python `s.replace("/", "--")` used for HF cache directory names. -/
def safeName (s : String) : String :=
  String.mk (replaceCh '/' ['-', '-'] s.data)

/-- Python `s.strip()`. -/
def trimStr (s : String) : String :=
  String.mk (((s.data.dropWhile Char.isWhitespace).reverse.dropWhile
    Char.isWhitespace).reverse)

/-- Codepoint-wise lexicographic strict comparison, as Python `<` on `str`. -/
def ltCh : List Char → List Char → Bool
  | [], [] => false
  | [], _ :: _ => true
  | _ :: _, [] => false
  | a :: as, b :: bs => a < b || (a == b && ltCh as bs)

/-- Non-strict lexicographic comparison. -/
def leCh (a b : List Char) : Bool := !(ltCh b a)

/-- Python `<` on strings. -/
def ltStr (a b : String) : Bool := ltCh a.data b.data

/-! ### Filesystem paths

A path is a list of components; `pathChars` renders it the way `str(Path)`
does, joining components with `/`.  The sparkrun cache root is treated as a
single opaque component. -/

/-- Render a path as its character list, components joined by `/`. -/
def pathChars : List String → List Char
  | [] => []
  | [s] => s.data
  | s :: rest => s.data ++ '/' :: pathChars rest

/-- `str(path)` for a component list. -/
def pathString (p : List String) : String := String.mk (pathChars p)

/-- Python `Path.__lt__`, which compares the rendered path strings. -/
def lePath (p q : List String) : Bool := leCh (pathChars p) (pathChars q)

/-- Insert into an ascending list (by `lePath`). -/
def insertPath (x : List String) : List (List String) → List (List String)
  | [] => [x]
  | y :: ys => if lePath x y then x :: y :: ys else y :: insertPath x ys

/-- Insertion sort by rendered path string: Python `sorted` on `Path`s. -/
def sortPaths : List (List String) → List (List String)
  | [] => []
  | x :: xs => insertPath x (sortPaths xs)

/-- Last component of a path: Python `Path.name`. -/
def lastName (p : List String) : String := p.getLastD ""

/-! ### Model spec helpers — `sparkrun/models/download.py` -/

/-- Split a character list at the first occurrence of `c`:
`some (before, after)` without the separator, or `none`. -/
def splitAtFirst (c : Char) : List Char → Option (List Char × List Char)
  | [] => none
  | x :: xs =>
    if x == c then some ([], xs)
    else (splitAtFirst c xs).map (fun p => (x :: p.1, p.2))

/-- `parse_gguf_model_spec`: split a model spec on the *last* colon
(Python `rsplit(":", 1)`); no colon means no quant variant. -/
def parse_gguf_model_spec (model_id : String) : String × Option String :=
  match splitAtFirst ':' model_id.data.reverse with
  | none => (model_id, none)
  | some (revQuant, revRepo) =>
    (String.mk revRepo.reverse, some (String.mk revQuant.reverse))

/-- `is_gguf_model`: a quant variant is present, or the repo id contains
`"gguf"` case-insensitively. -/
def is_gguf_model (model_id : String) : Bool :=
  let rq := parse_gguf_model_spec model_id
  match rq.2 with
  | some _ => true
  | none => containsSub (lowerStr rq.1) "gguf"

/-- Modelled from the spec: `resolve_cache_dir` lives in `sparkrun/config.py`,
an external collaborator ("a single configuration-resolution function");
it returns the override when given, else the process-wide default root. -/
def DEFAULT_HF_CACHE_DIR : String := "~/.cache/huggingface"

/-- Modelled from the spec: configuration resolution (see
`DEFAULT_HF_CACHE_DIR`). -/
def resolve_cache_dir (cache_dir : Option String) : String :=
  cache_dir.getD DEFAULT_HF_CACHE_DIR

/-- `model_cache_path`: deterministic cache path construction; the quant
variant is stripped because the cache is keyed by repository only. -/
def model_cache_path (model_id : String) (cache_dir : Option String) : String :=
  let cache := resolve_cache_dir cache_dir
  let rq := parse_gguf_model_spec model_id
  cache ++ "/hub/models--" ++ safeName rq.1

/-! ### In-memory filesystem -/

/-- A regular file: component path plus text content. -/
structure FSFile where
  path : List String
  content : String
deriving DecidableEq

/-- The filesystem: files and (explicitly listed) directories. -/
structure FS where
  files : List FSFile
  dirs : List (List String)
deriving DecidableEq

/-- `Path.is_file`-like existence of a regular file. -/
def fileExists (fs : FS) (p : List String) : Bool :=
  fs.files.any (fun f => f.path == p)

/-- `Path.is_dir`. -/
def isDir (fs : FS) (p : List String) : Bool :=
  fs.dirs.any (fun d => d == p)

/-- `Path.exists`: a file or a directory. -/
def pathExists (fs : FS) (p : List String) : Bool :=
  fileExists fs p || isDir fs p

/-- `Path.read_text` as an `Option` (the callers check existence first). -/
def readText? (fs : FS) (p : List String) : Option String :=
  (fs.files.find? (fun f => f.path == p)).map (fun f => f.content)

/-- Is `pre` an initial segment of `p`? -/
def segStarts : List String → List String → Bool
  | [], _ => true
  | _ :: _, [] => false
  | a :: as, b :: bs => a == b && segStarts as bs

/-- All entries (files and directories) strictly below `dir`, as used by
recursive `Path.glob("**/...")`. -/
def entriesUnder (fs : FS) (dir : List String) : List (List String) :=
  (fs.files.map (fun f => f.path) ++ fs.dirs).filter
    (fun p => segStarts dir p && decide (dir.length < p.length))

/-- Immediate child entries of `dir` (non-recursive `Path.glob`). -/
def childEntries (fs : FS) (dir : List String) : List (List String) :=
  (entriesUnder fs dir).filter (fun p => p.length == dir.length + 1)

/-- Immediate child directories: `[d for d in p.iterdir() if d.is_dir()]`. -/
def childDirsOf (fs : FS) (dir : List String) : List (List String) :=
  fs.dirs.filter (fun d => segStarts dir d && d.length == dir.length + 1)

/-! ### GGUF file resolution — `resolve_gguf_path` -/

/-- Does a file name match the glob pattern `*<quant>*.gguf`?
The name must end in `.gguf` and contain `quant` (case-sensitively) before
the suffix — `fnmatch` translates the pattern to `.*quant.*\.gguf`. -/
def ggufQuantName (quant name : String) : Bool :=
  endsWithStr name ".gguf" &&
    infixCh quant.data (name.data.take (name.data.length - 5))

/-- Does a file name match the glob pattern `*.gguf`? -/
def ggufAnyName (name : String) : Bool :=
  endsWithStr name ".gguf"

/-- Case-insensitive fallback filter: `quant.lower() in name.lower()`. -/
def ggufNameCI (quant name : String) : Bool :=
  containsSub (lowerStr name) (lowerStr quant)

/-- `sorted(model_cache.glob("**/*<pat>"))`: all entries under `mc` whose
name satisfies `pat`, ascending by rendered path. -/
def sortedGlob (fs : FS) (mc : List String) (pat : String → Bool) :
    List (List String) :=
  sortPaths ((entriesUnder fs mc).filter (fun p => pat (lastName p)))

/-- `resolve_gguf_path`: locate the cached `.gguf` file for a model spec.
Tries the case-sensitive quant glob first; if it matches nothing, falls
back to a case-insensitive filter over every `.gguf` file; returns the
first (path-sorted) match, or `none`. -/
def resolve_gguf_path (fs : FS) (model_id : String)
    (cache_dir : Option String) : Option String :=
  let rq := parse_gguf_model_spec model_id
  let cache := resolve_cache_dir cache_dir
  let mc := [cache, "hub", "models--" ++ safeName rq.1]
  if pathExists fs mc then
    let matched := match rq.2 with
      | some q => sortedGlob fs mc (ggufQuantName q)
      | none => sortedGlob fs mc ggufAnyName
    let matched := if matched.isEmpty then
        match rq.2 with
        | some q => (sortedGlob fs mc ggufAnyName).filter
            (fun p => ggufNameCI q (lastName p))
        | none => []
      else matched
    matched.head?.map pathString
  else none

/-! ### Cache completeness — `is_model_cached` -/

/-- `_snapshot_dirs_for_revision`: resolve a revision to snapshot
directories, via the `refs/<revision>` pointer file and by treating the
revision directly as a snapshot directory name. -/
def snapshot_dirs_for_revision (fs : FS) (model_cache snapshots : List String)
    (revision : String) : List (List String) :=
  let d1 := match readText? fs (model_cache ++ ["refs", revision]) with
    | some content =>
      let cand := snapshots ++ [trimStr content]
      if isDir fs cand then [cand] else []
    | none => []
  let cand := snapshots ++ [revision]
  if isDir fs cand && !(d1.any (fun d => d == cand)) then d1 ++ [cand] else d1

/-- The weight-bearing file patterns checked by `is_model_cached`. -/
def weightSuffixes : List String := [".safetensors", ".bin", ".pt", ".gguf"]

/-- `any(snapshot_dir.glob(pattern)) for pattern in weight_patterns`:
some immediate child entry bears a weights-file suffix. -/
def hasWeightEntry (fs : FS) (dir : List String) : Bool :=
  weightSuffixes.any (fun suf =>
    (childEntries fs dir).any (fun p => endsWithStr (lastName p) suf))

/-- `is_model_cached`: GGUF specs dispatch to `resolve_gguf_path`; plain
models resolve snapshot directories (explicit revision strictly; otherwise
`refs/main` with a fallback scan of every snapshot directory) and require a
weight-bearing file in one of them. -/
def is_model_cached (fs : FS) (model_id : String) (cache_dir : Option String)
    (revision : Option String) : Bool :=
  if is_gguf_model model_id then
    (resolve_gguf_path fs model_id cache_dir).isSome
  else
    let cache := resolve_cache_dir cache_dir
    let mc := [cache, "hub", "models--" ++ safeName model_id]
    if !pathExists fs mc then false
    else
      let snaps := mc ++ ["snapshots"]
      if !pathExists fs snaps then false
      else
        let sdirs := match revision with
          | some rev => snapshot_dirs_for_revision fs mc snaps rev
          | none =>
            let d := snapshot_dirs_for_revision fs mc snaps "main"
            if d.isEmpty then childDirsOf fs snaps else d
        sdirs.any (fun d => hasWeightEntry fs d)

/-! ### Scripts, per-host results, effect events

Modelled from the spec: embedded shell scripts are opaque programs
identified by name and template-substituted parameters (the `.sh` bodies
are not part of the verified core), so a built script is the script kind
together with the substituted parameter strings. -/

/-- A script rendered for remote execution: its kind and parameters. -/
inductive BuiltScript
  /-- `model_sync.sh` with `model_id`, `cache`, `revision_flag`. -/
  | modelSync (model_id cache revision_flag : String)
  /-- `model_sync_gguf.sh` with `repo_id`, `quant`, `cache`, `revision_flag`. -/
  | modelSyncGguf (repo_id quant cache revision_flag : String)
  /-- The inline best-effort `chown` script of
  `_try_fix_remote_permissions`, parameterised by the cache directory. -/
  | fixPermissions (cache_dir : String)
  /-- A caller-supplied script body passed through verbatim. -/
  | raw (text : String)
deriving DecidableEq

/-- Per-Host Execution Result: management-side host id plus success flag
(diagnostic output omitted — no embedded code inspects it). -/
structure SSHResult where
  host : String
  success : Bool
deriving DecidableEq

/-- Observable side-effecting calls issued by the embedded code. -/
inductive Event
  /-- `snapshot_download(repo_id, revision, allow_patterns)` network call. -/
  | snapshotDownload (repo_id : String) (revision : Option String)
      (allow_patterns : Option (List String))
  /-- Local cache inspection performed before a real download. -/
  | cacheCheck (model_id : String)
  /-- `run_remote_scripts_parallel(hosts, script)`. -/
  | runScript (hosts : List String) (script : BuiltScript)
  /-- `run_rsync_parallel(src, hosts, dest)`. -/
  | rsync (src : String) (hosts : List String) (dest : String)
  /-- `run_remote_sudo_script(host, ...)` password-based fallback. -/
  | sudoRun (host : String)
  /-- An interactive password prompt (never issued by the embedded code). -/
  | promptPassword
deriving DecidableEq

/-- Is the event a fan-out to remote hosts (script run or rsync)? -/
def isFanoutEvent : Event → Bool
  | Event.runScript _ _ => true
  | Event.rsync _ _ _ => true
  | _ => false

/-- The environment's responses: the filesystem, the exit code of the
underlying `snapshot_download` call, and per-host outcomes of the remote
executor's operations. -/
structure World where
  fs : FS
  snapshotExit : String → Option String → Option (List String) → Nat
  scriptSuccess : String → Bool
  rsyncSuccess : String → Bool
  sudoSuccess : String → Bool

/-- Modelled from the spec: `run_script_parallel` of the Remote Executor
(`sparkrun/orchestration/ssh.py`, an external collaborator): one result per
host; when `dry_run` is true it performs no network activity and returns
synthetic success results. -/
def run_remote_scripts_parallel (w : World) (hosts : List String)
    (script : BuiltScript) (dry_run : Bool) : List SSHResult × List Event :=
  if dry_run then (hosts.map (fun h => ⟨h, true⟩), [])
  else (hosts.map (fun h => ⟨h, w.scriptSuccess h⟩),
        [Event.runScript hosts script])

/-- Modelled from the spec: `run_rsync_parallel` of the Remote Executor;
same per-host result and dry-run contract. -/
def run_rsync_parallel (w : World) (src : String) (hosts : List String)
    (dest : String) (dry_run : Bool) : List SSHResult × List Event :=
  if dry_run then (hosts.map (fun h => ⟨h, true⟩), [])
  else (hosts.map (fun h => ⟨h, w.rsyncSuccess h⟩), [Event.rsync src hosts dest])

/-- Modelled from the spec: `run_sudo_script` single-host privileged
execution with an interactively supplied password. -/
def run_remote_sudo_script (w : World) (host : String) (_script : String)
    (dry_run : Bool) : SSHResult × List Event :=
  if dry_run then (⟨host, true⟩, [])
  else (⟨host, w.sudoSuccess host⟩, [Event.sudoRun host])

/-- Modelled from the spec: `map_transfer_failures`
(`sparkrun/orchestration/primitives.py`, external collaborator): report
each unsuccessful transfer-host result as the management hostname at the
same index. -/
def map_transfer_failures (results : List SSHResult)
    (xfer mgmt : List String) : List String :=
  results.filterMap (fun r =>
    if r.success then none
    else (xfer.indexOf? r.host).bind (fun i => mgmt.get? i))

/-- Modelled from the spec: `sync_resource_to_hosts`
(`sparkrun/orchestration/primitives.py`): independent-pull topology — run
one ensure script on every host in parallel and return the unsuccessful
management hostnames. -/
def sync_resource_to_hosts (w : World) (script : BuiltScript)
    (hosts : List String) (dry_run : Bool) : List String × List Event :=
  let r := run_remote_scripts_parallel w hosts script dry_run
  (r.1.filterMap (fun x => if x.success then none else some x.host), r.2)

/-! ### Model download — `download_model` / `_download_gguf` -/

/-- The revision flag fragment: `"--revision %s " % revision if revision
else ""` (built identically in `sync.py` and `distribute.py`). -/
def revisionFlag : Option String → String
  | some r => "--revision " ++ r ++ " "
  | none => ""

/-- `_download_gguf`: dry run short-circuits; otherwise inspect the cache
(the result only feeds a log line) and call `snapshot_download` on the
parsed repository with an `allow_patterns` quant allowlist. -/
def download_gguf (w : World) (model_id : String) (cache_dir : Option String)
    (revision : Option String) (dry_run : Bool) : Nat × List Event :=
  let rq := parse_gguf_model_spec model_id
  let cache := resolve_cache_dir cache_dir
  if dry_run then (0, [])
  else
    let pats := rq.2.map (fun q => ["*" ++ q ++ "*"])
    let _cached := (resolve_gguf_path w.fs model_id (some cache)).isSome
    (w.snapshotExit rq.1 revision pats,
     [Event.cacheCheck model_id, Event.snapshotDownload rq.1 revision pats])

/-- `download_model`: GGUF specs dispatch to `download_gguf`; a dry run
returns success before any cache inspection or network call; otherwise the
cache is inspected (log only) and the whole repository is fetched. -/
def download_model (w : World) (model_id : String) (cache_dir : Option String)
    (revision : Option String) (dry_run : Bool) : Nat × List Event :=
  if is_gguf_model model_id then
    download_gguf w model_id cache_dir revision dry_run
  else
    let cache := resolve_cache_dir cache_dir
    if dry_run then (0, [])
    else
      let _cached := is_model_cached w.fs model_id (some cache) revision
      (w.snapshotExit model_id revision none,
       [Event.cacheCheck model_id, Event.snapshotDownload model_id revision none])

/-! ### Distribution — `distribute.py` and `sync.py` -/

/-- `_try_fix_remote_permissions`: best-effort parallel chown before rsync;
failures are only logged. -/
def try_fix_remote_permissions (w : World) (cache_dir : String)
    (hosts : List String) (dry_run : Bool) : List Event :=
  (run_remote_scripts_parallel w hosts (BuiltScript.fixPermissions cache_dir)
    dry_run).2

/-- `distribute_model_from_local`: download locally, abort reporting every
host failed if that fails, then best-effort permission fix and parallel
rsync over the transfer hostnames, mapping failures back to management
hostnames. -/
def distribute_model_from_local (w : World) (model_id : String)
    (hosts : List String) (cache_dir : Option String)
    (revision : Option String) (dry_run : Bool)
    (transfer_hosts : Option (List String)) : List String × List Event :=
  let cache := resolve_cache_dir cache_dir
  let dl := download_model w model_id (some cache) revision dry_run
  if dl.1 ≠ 0 then (hosts, dl.2)
  else if hosts.isEmpty then ([], dl.2)
  else
    -- Python `transfer_hosts or hosts`: an empty list is falsy.
    let xfer := match transfer_hosts with
      | some l => if l.isEmpty then hosts else l
      | none => hosts
    let permTrace := try_fix_remote_permissions w cache hosts dry_run
    let model_path := model_cache_path model_id (some cache)
    let rs := run_rsync_parallel w model_path xfer model_path dry_run
    let failed := map_transfer_failures rs.1 xfer hosts
    (failed, dl.2 ++ permTrace ++ rs.2)

/-- `sync_model_to_hosts` (`sparkrun/models/sync.py`): independent-pull
topology for models.  The script is always `model_sync.sh`, templated with
the raw model id, the resolved cache root and the revision flag fragment. -/
def sync_model_to_hosts (w : World) (model_id : String) (hosts : List String)
    (cache_dir : Option String) (revision : Option String) (dry_run : Bool) :
    List String × List Event :=
  let cache := resolve_cache_dir cache_dir
  let script := BuiltScript.modelSync model_id cache (revisionFlag revision)
  sync_resource_to_hosts w script hosts dry_run

/-- The "ensure present" script built by `distribute_model_from_head`
(lines 202–213 of `distribute.py`): GGUF specs select
`model_sync_gguf.sh` with the parsed repository id and quant pattern,
plain models select `model_sync.sh`; the revision flag fragment is
substituted in both. -/
def head_ensure_script (model_id : String) (cache : String)
    (revision : Option String) : BuiltScript :=
  let revision_flag := revisionFlag revision
  if is_gguf_model model_id then
    let rq := parse_gguf_model_spec model_id
    BuiltScript.modelSyncGguf rq.1 (rq.2.getD "") cache revision_flag
  else
    BuiltScript.modelSync model_id cache revision_flag

/-! ### Privileged-fallback runner — `orchestration/sudo.py` -/

/-- Insert-or-overwrite into an association list (Python dict assignment). -/
def mapSet (m : List (String × SSHResult)) (k : String) (v : SSHResult) :
    List (String × SSHResult) :=
  if m.any (fun e => e.1 == k) then
    m.map (fun e => if e.1 == k then (k, v) else e)
  else m ++ [(k, v)]

/-- Dictionary lookup. -/
def mapGet? (m : List (String × SSHResult)) (k : String) : Option SSHResult :=
  (m.find? (fun e => e.1 == k)).map (fun e => e.2)

/-- The loop body partitioning phase-1 results: successes enter the result
map, failures are appended to the failed-host list. -/
def sudoPartitionStep (acc : List (String × SSHResult) × List String)
    (r : SSHResult) : List (String × SSHResult) × List String :=
  if r.success then (mapSet acc.1 r.host r, acc.2)
  else (acc.1, acc.2 ++ [r.host])

/-- The partition loop over all phase-1 results. -/
def sudoPartition (results : List SSHResult) :
    List (String × SSHResult) × List String :=
  results.foldl sudoPartitionStep ([], [])

/-- The loop body of the sequential password-based retry: run the fallback
on one host and record its result. -/
def sudoRetryStep (w : World) (fallback_script : String) (dry_run : Bool)
    (acc : List (String × SSHResult) × List Event) (h : String) :
    List (String × SSHResult) × List Event :=
  let r := run_remote_sudo_script w h fallback_script dry_run
  (mapSet acc.1 h r.1, acc.2 ++ r.2)

/-- The sequential retry loop over the failed hosts. -/
def sudoRetry (w : World) (fallback_script : String) (dry_run : Bool)
    (start : List (String × SSHResult)) (failed : List String) :
    List (String × SSHResult) × List Event :=
  failed.foldl (sudoRetryStep w fallback_script dry_run) (start, [])

/-- `run_with_sudo_fallback`: phase 1 runs the non-interactive script on
all hosts in parallel; failures are retried one host at a time with the
password-based script, but only when a password was supplied and this is
not a dry run; returns the accumulated result map and the hosts still
failing. -/
def run_with_sudo_fallback (w : World) (host_list : List String)
    (script fallback_script : String) (dry_run : Bool)
    (sudo_password : Option String) :
    (List (String × SSHResult) × List String) × List Event :=
  let pr := run_remote_scripts_parallel w host_list (BuiltScript.raw script)
    dry_run
  let part := sudoPartition pr.1
  let result_map0 := part.1
  let failed_hosts := part.2
  let retried :=
    if !failed_hosts.isEmpty && !dry_run && sudo_password.isSome then
      sudoRetry w fallback_script dry_run result_map0 failed_hosts
    else (result_map0, [])
  let result_map := retried.1
  let still_failed := failed_hosts.filter (fun h =>
    match mapGet? result_map h with
    | none => true
    | some r => !r.success)
  ((result_map, still_failed), pr.2 ++ retried.2)

/-! ### Pending-operation ledger — `pending_ops.py`

The pending directory is modelled as an association list from filename to
file payload.  A payload is either a parseable record (JSON serialisation
round-trips, so the parsed `PendingInfo` stands for the file text) or a
corrupt/unparsable blob.  Timestamps are integral epoch seconds; the
source's rounding of the float elapsed time to one decimal is outside the
model.  A record file that is valid JSON but lacks the expected fields is
not modelled (the source would probe a default pid of `-1`). -/

/-- The fields of one pending-operation record. -/
structure PendingInfo where
  cluster_id : String
  operation : String
  pid : Nat
  started_at : Nat
  recipe : String
  model : String
  image : String
  hosts : List String
deriving DecidableEq

/-- Payload of a ledger file. -/
inductive LockFile
  | record (info : PendingInfo)
  | corrupt
deriving DecidableEq

/-- The pending directory: filename → payload. -/
structure Ledger where
  entries : List (String × LockFile)
deriving DecidableEq

/-- A record as returned by `list_pending_ops`: the stored fields plus the
computed `elapsed_seconds`. -/
structure PendingView where
  info : PendingInfo
  elapsed_seconds : Int
deriving DecidableEq

/-- `_lock_path`: sanitize `/` out of the cluster id and key the file by
cluster id and operation tag. -/
def lock_path (cluster_id operation : String) : String :=
  String.mk (replaceCh '/' ['_'] cluster_id.data) ++ "_" ++ operation ++ ".json"

/-- Overwrite-or-create a ledger file. -/
def ledgerSet (L : Ledger) (k : String) (f : LockFile) : Ledger :=
  ⟨L.entries.filter (fun e => !(e.1 == k)) ++ [(k, f)]⟩

/-- `create_pending_op`: first `d.mkdir(parents=True, exist_ok=True)`,
which runs *outside* the `try/except OSError` — a directory-creation
failure (`mkdirFails`) therefore propagates as an exception
(`Except.error`).  The record-file write inside the `try/except` is
best-effort: its failure (`writeFails`) is logged and swallowed, and the
lock path is returned either way.  The pending directory itself carries no
state in the ledger model (`exist_ok=True`), so a successful `mkdir`
leaves the ledger unchanged. -/
def create_pending_op (mkdirFails writeFails : Bool) (pid now : Nat)
    (L : Ledger) (cluster_id operation recipe model image : String)
    (hosts : List String) : Except Unit (String × Ledger) :=
  if mkdirFails then Except.error ()
  else
    let info : PendingInfo :=
      ⟨cluster_id, operation, pid, now, recipe, model, image, hosts⟩
    let path := lock_path cluster_id operation
    let write : Except Unit Ledger :=
      if writeFails then Except.error ()
      else Except.ok (ledgerSet L path (LockFile.record info))
    match write with
    | Except.error _ => Except.ok (path, L)
    | Except.ok L2 => Except.ok (path, L2)

/-- `remove_pending_op`: `unlink(missing_ok=True)` inside `except OSError`;
an unlink failure (`unlinkFails`) is logged and swallowed, a missing file
is a no-op. -/
def remove_pending_op (unlinkFails : Bool) (L : Ledger)
    (cluster_id operation : String) : Ledger :=
  if unlinkFails then L
  else ⟨L.entries.filter (fun e => !(e.1 == lock_path cluster_id operation))⟩

/-- One step of the `list_pending_ops` sweep: skip non-`*.json` names,
delete corrupt payloads, delete records whose pid is dead, and return live
records with the computed elapsed time. -/
def sweepStep (now : Nat) (alive : Nat → Bool)
    (acc : List PendingView × List (String × LockFile))
    (e : String × LockFile) : List PendingView × List (String × LockFile) :=
  if !(endsWithStr e.1 ".json") then (acc.1, acc.2 ++ [e])
  else
    match e.2 with
    | LockFile.corrupt => acc
    | LockFile.record info =>
      if !(alive info.pid) then acc
      else (acc.1 ++ [⟨info, (now : Int) - (info.started_at : Int)⟩],
            acc.2 ++ [e])

/-- `list_pending_ops`: scan every `*.json` file, prune corrupt files and
files whose owning pid is gone, and return the live records together with
the swept directory state (a read is also a sweep). -/
def list_pending_ops (now : Nat) (alive : Nat → Bool) (L : Ledger) :
    List PendingView × Ledger :=
  let r := L.entries.foldl (sweepStep now alive) ([], [])
  (r.1, ⟨r.2⟩)

/-- Does a ledger payload record the given cluster id and operation tag? -/
def pairMatches (cluster_id operation : String) : LockFile → Bool
  | LockFile.record i => i.cluster_id == cluster_id && i.operation == operation
  | LockFile.corrupt => false

/-- The view-level filter for one (cluster id, operation tag) pair. -/
def viewMatches (cluster_id operation : String) (v : PendingView) : Bool :=
  v.info.cluster_id == cluster_id && v.info.operation == operation

/-! ### Order and sorting lemmas -/

theorem ltCh_irrefl (a : List Char) : ltCh a a = false := by
  induction a with
  | nil => rfl
  | cons x xs ih => simp [ltCh, ih, lt_irrefl]

theorem ltCh_asymm {a b : List Char} (h : ltCh a b = true) :
    ltCh b a = false := by
  induction a generalizing b with
  | nil =>
    cases b with
    | nil => simp [ltCh] at h
    | cons y ys => rfl
  | cons x xs ih =>
    cases b with
    | nil => simp [ltCh] at h
    | cons y ys =>
      simp only [ltCh, Bool.or_eq_true, Bool.and_eq_true, beq_iff_eq,
        decide_eq_true_eq] at h
      rcases h with h | ⟨rfl, h⟩
      · have h1 : ¬ y < x := lt_asymm h
        have h2 : ¬ y = x := fun e => absurd h (by simp [e, lt_irrefl])
        simp [ltCh, h1, h2]
      · simp [ltCh, lt_irrefl, ih h]

theorem lePath_refl (p : List String) : lePath p p = true := by
  simp [lePath, leCh, ltCh_irrefl]

theorem lePath_total (p q : List String) :
    lePath p q = true ∨ lePath q p = true := by
  by_cases h : ltCh (pathChars q) (pathChars p) = true
  · right; simp [lePath, leCh, ltCh_asymm h]
  · left; simp [lePath, leCh, Bool.eq_false_iff.mpr] at h ⊢
    simp [h]

theorem mem_insertPath {a x : List String} {l : List (List String)} :
    a ∈ insertPath x l ↔ a = x ∨ a ∈ l := by
  induction l with
  | nil => simp [insertPath]
  | cons y ys ih =>
    simp only [insertPath]
    split
    · simp
    · simp [ih]; tauto

theorem mem_sortPaths {a : List String} {l : List (List String)} :
    a ∈ sortPaths l ↔ a ∈ l := by
  induction l with
  | nil => simp [sortPaths]
  | cons x xs ih => simp [sortPaths, mem_insertPath, ih]

theorem ltCh_trans {a b c : List Char} (h1 : ltCh a b = true)
    (h2 : ltCh b c = true) : ltCh a c = true := by
  induction a generalizing b c with
  | nil =>
    cases b with
    | nil => simp [ltCh] at h1
    | cons y ys =>
      cases c with
      | nil => simp [ltCh] at h2
      | cons z zs => rfl
  | cons x xs ih =>
    cases b with
    | nil => simp [ltCh] at h1
    | cons y ys =>
      cases c with
      | nil => simp [ltCh] at h2
      | cons z zs =>
        simp only [ltCh, Bool.or_eq_true, Bool.and_eq_true, beq_iff_eq,
          decide_eq_true_eq] at h1 h2 ⊢
        rcases h1 with h1 | ⟨rfl, h1⟩
        · rcases h2 with h2 | ⟨rfl, h2⟩
          · exact Or.inl (lt_trans h1 h2)
          · exact Or.inl h1
        · rcases h2 with h2 | ⟨rfl, h2⟩
          · exact Or.inl h2
          · exact Or.inr ⟨rfl, ih h1 h2⟩

theorem ltCh_conn {a b : List Char} (h1 : ltCh a b = false)
    (h2 : ltCh b a = false) : a = b := by
  induction a generalizing b with
  | nil =>
    cases b with
    | nil => rfl
    | cons y ys => simp [ltCh] at h1
  | cons x xs ih =>
    cases b with
    | nil => simp [ltCh] at h2
    | cons y ys =>
      simp only [ltCh, Bool.or_eq_false_iff, Bool.and_eq_false_iff,
        beq_eq_false_iff_ne, ne_eq, decide_eq_false_iff_not] at h1 h2
      rcases h1 with ⟨hxy, h1⟩
      rcases h2 with ⟨hyx, h2⟩
      have hxy2 : x = y := le_antisymm (not_lt.mp hyx) (not_lt.mp hxy)
      subst hxy2
      rcases h1 with h1 | h1
      · exact absurd rfl h1
      · rcases h2 with h2 | h2
        · exact absurd rfl h2
        · rw [ih h1 h2]

theorem lePath_trans {p q r : List String} (h1 : lePath p q = true)
    (h2 : lePath q r = true) : lePath p r = true := by
  simp only [lePath, leCh, Bool.not_eq_true'] at h1 h2 ⊢
  by_cases hrp : ltCh (pathChars r) (pathChars p) = true
  · exfalso
    by_cases hpq : ltCh (pathChars p) (pathChars q) = true
    · exact (Bool.eq_false_iff.mp h2) (ltCh_trans hrp hpq)
    · have hEq : pathChars p = pathChars q :=
        ltCh_conn (Bool.eq_false_iff.mpr hpq) h1
      exact (Bool.eq_false_iff.mp h2) (hEq ▸ hrp)
  · exact Bool.eq_false_iff.mpr hrp

theorem pairwise_insertPath {x : List String} {l : List (List String)}
    (h : l.Pairwise (fun a b => lePath a b = true)) :
    (insertPath x l).Pairwise (fun a b => lePath a b = true) := by
  induction l with
  | nil => simp [insertPath]
  | cons y ys ih =>
    simp only [insertPath]
    rcases List.pairwise_cons.mp h with ⟨hy, hys⟩
    split
    · rename_i hxy
      refine List.pairwise_cons.mpr ⟨?_, h⟩
      intro b hb
      rcases List.mem_cons.mp hb with rfl | hb
      · exact hxy
      · exact lePath_trans hxy (hy b hb)
    · rename_i hxy
      refine List.pairwise_cons.mpr ⟨?_, ih hys⟩
      intro b hb
      rcases mem_insertPath.mp hb with rfl | hb
      · rcases lePath_total y b with h1 | h1
        · exact h1
        · exact absurd h1 (by simpa using hxy)
      · exact hy b hb

theorem pairwise_sortPaths (l : List (List String)) :
    (sortPaths l).Pairwise (fun a b => lePath a b = true) := by
  induction l with
  | nil => simp [sortPaths]
  | cons x xs ih => exact pairwise_insertPath ih

/-- The head of a `lePath`-pairwise list is `lePath`-below every member. -/
theorem head_pairwise_min {a : List String} {t : List (List String)}
    (h : (a :: t).Pairwise (fun a b => lePath a b = true)) :
    ∀ y ∈ a :: t, lePath a y = true := by
  intro y hy
  rcases List.mem_cons.mp hy with rfl | hy
  · exact lePath_refl y
  · exact (List.pairwise_cons.mp h).1 y hy

theorem sortPaths_eq_nil {l : List (List String)} :
    sortPaths l = [] ↔ l = [] := by
  cases l with
  | nil => simp [sortPaths]
  | cons x xs =>
    simp only [sortPaths]
    constructor
    · intro h
      have : x ∈ insertPath x (sortPaths xs) := mem_insertPath.mpr (Or.inl rfl)
      rw [h] at this
      exact absurd this (List.not_mem_nil x)
    · intro h
      exact absurd h (List.cons_ne_nil x xs)

/-- The head of the sorted list is a member of the original list and
`lePath`-below every member. -/
theorem sortPaths_head_min {l : List (List String)} {p : List String}
    (h : (sortPaths l).head? = some p) :
    p ∈ l ∧ ∀ y ∈ l, lePath p y = true := by
  cases e : sortPaths l with
  | nil => rw [e] at h; exact absurd h (by simp)
  | cons a t =>
    rw [e] at h
    have hpa : a = p := by simpa using h
    subst hpa
    constructor
    · exact mem_sortPaths.mp (e ▸ List.mem_cons_self a t)
    · intro y hy
      have hmem : y ∈ sortPaths l := mem_sortPaths.mpr hy
      rw [e] at hmem
      exact head_pairwise_min (e ▸ pairwise_sortPaths l) y hmem

/-- Head of the `P`-filtered sorted list: a `P`-member of the original list,
`lePath`-below every `P`-member. -/
theorem filter_sortPaths_head_min {l : List (List String)}
    {P : List String → Bool} {p : List String}
    (h : ((sortPaths l).filter P).head? = some p) :
    p ∈ l ∧ P p = true ∧ ∀ y ∈ l, P y = true → lePath p y = true := by
  cases e : (sortPaths l).filter P with
  | nil => rw [e] at h; exact absurd h (by simp)
  | cons a t =>
    rw [e] at h
    have hpa : a = p := by simpa using h
    subst hpa
    have hmem : a ∈ (sortPaths l).filter P := e ▸ List.mem_cons_self a t
    have hm := List.mem_filter.mp hmem
    refine ⟨mem_sortPaths.mp hm.1, hm.2, ?_⟩
    intro y hy hPy
    have hmem2 : y ∈ (sortPaths l).filter P :=
      List.mem_filter.mpr ⟨mem_sortPaths.mpr hy, hPy⟩
    rw [e] at hmem2
    exact head_pairwise_min (e ▸ (pairwise_sortPaths l).filter P) y hmem2

/-! ### Filesystem helper lemmas -/

theorem segStarts_append (l m : List String) : segStarts l (l ++ m) = true := by
  induction l with
  | nil => rfl
  | cons x xs ih => simp [segStarts, ih]

theorem lastName_append (l : List String) (a : String) :
    lastName (l ++ [a]) = a := by
  simp [lastName, List.getLastD_concat]

/-- A file stored at `dir ++ [a]` is an immediate child entry of `dir`. -/
theorem mem_childEntries_of_file {fs : FS} {f : FSFile} {dir : List String}
    {a : String} (hf : f ∈ fs.files) (hp : f.path = dir ++ [a]) :
    (dir ++ [a]) ∈ childEntries fs dir := by
  refine List.mem_filter.mpr ⟨?_, by simp⟩
  refine List.mem_filter.mpr ⟨?_, ?_⟩
  · exact List.mem_append_left _ (hp ▸ List.mem_map_of_mem FSFile.path hf)
  · simp [segStarts_append]

/-- A snapshot directory holding a weight-suffixed file has a weight entry. -/
theorem hasWeightEntry_of_file {fs : FS} {f : FSFile} {dir : List String}
    {a : String} (hf : f ∈ fs.files) (hp : f.path = dir ++ [a])
    (hsuf : weightSuffixes.any (fun s => endsWithStr a s) = true) :
    hasWeightEntry fs dir = true := by
  rcases List.any_eq_true.mp hsuf with ⟨suf, hm, he⟩
  refine List.any_eq_true.mpr ⟨suf, hm, ?_⟩
  refine List.any_eq_true.mpr ⟨dir ++ [a], mem_childEntries_of_file hf hp, ?_⟩
  rw [lastName_append]
  exact he

/-- The cache entry directory checked by `is_model_cached` for a plain id. -/
def mcOf (root model_id : String) : List String :=
  [root, "hub", "models--" ++ safeName model_id]

/-- Its `snapshots` subdirectory. -/
def snapsOf (root model_id : String) : List String :=
  mcOf root model_id ++ ["snapshots"]

/-- Unfolding of `is_model_cached` for a plain model with no revision,
once the entry and its snapshots directory exist: resolve via `refs/main`
first, scan every snapshot directory only when that yields nothing. -/
theorem is_model_cached_plain_none (fs : FS) (model_id root : String)
    (hplain : is_gguf_model model_id = false)
    (hmc : pathExists fs (mcOf root model_id) = true)
    (hsn : pathExists fs (snapsOf root model_id) = true) :
    is_model_cached fs model_id (some root) none =
      ((fun d => (if d.isEmpty then childDirsOf fs (snapsOf root model_id)
          else d).any (hasWeightEntry fs))
        (snapshot_dirs_for_revision fs (mcOf root model_id)
          (snapsOf root model_id) "main")) := by
  simp only [snapsOf, mcOf] at hmc hsn
  simp only [is_model_cached, hplain, Bool.false_eq_true, if_false,
    resolve_cache_dir, Option.getD, mcOf, snapsOf]
  rw [hmc, hsn]
  simp

/-- Unfolding of `is_model_cached` for a plain model with an explicit
revision, once the entry and its snapshots directory exist: only the
strictly resolved snapshot directories are checked. -/
theorem is_model_cached_plain_rev (fs : FS) (model_id root rev : String)
    (hplain : is_gguf_model model_id = false)
    (hmc : pathExists fs (mcOf root model_id) = true)
    (hsn : pathExists fs (snapsOf root model_id) = true) :
    is_model_cached fs model_id (some root) (some rev) =
      (snapshot_dirs_for_revision fs (mcOf root model_id)
        (snapsOf root model_id) rev).any (hasWeightEntry fs) := by
  simp only [snapsOf, mcOf] at hmc hsn
  simp only [is_model_cached, hplain, Bool.false_eq_true, if_false,
    resolve_cache_dir, Option.getD, mcOf, snapsOf]
  rw [hmc, hsn]
  simp

/-- Unfolding of `snapshot_dirs_for_revision` when the ref pointer file
resolves to an existing snapshot directory. -/
theorem snapshot_dirs_resolved (fs : FS) (mc snaps : List String)
    (rev ctext commit : String)
    (href : readText? fs (mc ++ ["refs", rev]) = some ctext)
    (htrim : trimStr ctext = commit)
    (hdir : isDir fs (snaps ++ [commit]) = true) :
    snapshot_dirs_for_revision fs mc snaps rev =
      (if isDir fs (snaps ++ [rev])
          && !([snaps ++ [commit]].any (fun d => d == snaps ++ [rev]))
        then [snaps ++ [commit], snaps ++ [rev]] else [snaps ++ [commit]]) := by
  simp only [snapshot_dirs_for_revision, href, htrim, hdir, if_true]
  rfl

/-- `is_model_cached` is false for a plain model whose cache entry
directory does not exist. -/
theorem is_model_cached_plain_no_entry (fs : FS) (model_id root : String)
    (revision : Option String) (hplain : is_gguf_model model_id = false)
    (hmc : pathExists fs (mcOf root model_id) = false) :
    is_model_cached fs model_id (some root) revision = false := by
  simp only [mcOf] at hmc
  simp [is_model_cached, hplain, resolve_cache_dir, hmc]

/-- `is_model_cached` is false for a plain model whose `snapshots`
directory does not exist. -/
theorem is_model_cached_plain_no_snaps (fs : FS) (model_id root : String)
    (revision : Option String) (hplain : is_gguf_model model_id = false)
    (hsn : pathExists fs (snapsOf root model_id) = false) :
    is_model_cached fs model_id (some root) revision = false := by
  simp only [snapsOf, mcOf] at hsn
  simp only [is_model_cached, hplain, Bool.false_eq_true, if_false,
    resolve_cache_dir, Option.getD]
  rw [hsn]
  cases hmc : pathExists fs [root, "hub", "models--" ++ safeName model_id] <;>
    simp

/-! ### C3: cache completeness for plain models -/

/-- **C3.** Plain-model cache completeness: with the cache entry and its
snapshots directory present and `refs/main` resolving to an existing
snapshot directory, `is_model_cached` with no revision is true whenever
that snapshot directory holds a file bearing a weights suffix
(`.safetensors`, `.bin`, `.pt`, `.gguf`), and false when it holds no
weight-suffixed entry (e.g. only `config.json`) — the second part under
the side condition that `snapshots/main` is not itself a directory, which
is what rules out any other directory being consulted. -/
theorem cache_completeness_plain (fs : FS)
    (model_id root commit ctext : String)
    (hplain : is_gguf_model model_id = false)
    (hmc : pathExists fs (mcOf root model_id) = true)
    (hsn : pathExists fs (snapsOf root model_id) = true)
    (href : readText? fs (mcOf root model_id ++ ["refs", "main"]) = some ctext)
    (htrim : trimStr ctext = commit)
    (hdir : isDir fs (snapsOf root model_id ++ [commit]) = true) :
    (∀ (f : FSFile) (a : String), f ∈ fs.files →
        f.path = snapsOf root model_id ++ [commit] ++ [a] →
        weightSuffixes.any (fun s => endsWithStr a s) = true →
        is_model_cached fs model_id (some root) none = true) ∧
    (hasWeightEntry fs (snapsOf root model_id ++ [commit]) = false →
        isDir fs (snapsOf root model_id ++ ["main"]) = false →
        is_model_cached fs model_id (some root) none = false) := by
  have hrw := is_model_cached_plain_none fs model_id root hplain hmc hsn
  have hsd := snapshot_dirs_resolved fs (mcOf root model_id)
    (snapsOf root model_id) "main" ctext commit href htrim hdir
  constructor
  · intro f a hf hp hsuf
    have hW : hasWeightEntry fs (snapsOf root model_id ++ [commit]) = true :=
      hasWeightEntry_of_file hf hp hsuf
    rw [hrw, hsd]
    split <;> simp [hW]
  · intro hnoW hnm
    rw [hrw, hsd]
    simp [hnm, hnoW]

/-- Concrete plain-model cache entry with a real weight file under the
snapshot that `refs/main` points to. -/
def fsWeights : FS :=
  ⟨[⟨["/c", "hub", "models--org--m", "refs", "main"], "h1\n"⟩,
    ⟨["/c", "hub", "models--org--m", "snapshots", "h1", "model.safetensors"],
      "w"⟩],
   [["/c", "hub", "models--org--m"],
    ["/c", "hub", "models--org--m", "snapshots"],
    ["/c", "hub", "models--org--m", "snapshots", "h1"]]⟩

/-- The same entry holding only a metadata file. -/
def fsMetaOnly : FS :=
  ⟨[⟨["/c", "hub", "models--org--m", "refs", "main"], "h1\n"⟩,
    ⟨["/c", "hub", "models--org--m", "snapshots", "h1", "config.json"], "x"⟩],
   [["/c", "hub", "models--org--m"],
    ["/c", "hub", "models--org--m", "snapshots"],
    ["/c", "hub", "models--org--m", "snapshots", "h1"]]⟩

/-- Witness for C3: a weights-bearing entry is cached, the same entry with
only `config.json` is not. -/
theorem cache_completeness_plain_witness :
    is_model_cached fsWeights "org/m" (some "/c") none = true ∧
    is_model_cached fsMetaOnly "org/m" (some "/c") none = false := by
  constructor
  · exact (cache_completeness_plain fsWeights "org/m" "/c" "h1" "h1\n"
        (by decide) (by decide) (by decide) (by decide) (by decide)
        (by decide)).1
      ⟨["/c", "hub", "models--org--m", "snapshots", "h1", "model.safetensors"],
        "w"⟩
      "model.safetensors" (by decide) (by decide) (by decide)
  · exact (cache_completeness_plain fsMetaOnly "org/m" "/c" "h1" "h1\n"
        (by decide) (by decide) (by decide) (by decide) (by decide)
        (by decide)).2
      (by decide) (by decide)

/-! ### C4: revision resolution order -/

/-- **C4.** Revision resolution in `is_model_cached` for plain models:
an explicit revision that resolves neither through a `refs/<revision>`
pointer file nor as a `snapshots/<revision>` directory yields false with no
fallback, whatever else the filesystem holds; with no revision, the result
is computed from `refs/main` resolution first, the scan of every snapshot
directory being consulted exactly when that resolution yields nothing. -/
theorem revision_resolution (fs : FS) (model_id root : String)
    (hplain : is_gguf_model model_id = false) :
    (∀ rev : String,
        readText? fs (mcOf root model_id ++ ["refs", rev]) = none →
        isDir fs (snapsOf root model_id ++ [rev]) = false →
        is_model_cached fs model_id (some root) (some rev) = false) ∧
    (pathExists fs (mcOf root model_id) = true →
      pathExists fs (snapsOf root model_id) = true →
      is_model_cached fs model_id (some root) none =
        ((fun d => (if d.isEmpty then childDirsOf fs (snapsOf root model_id)
            else d).any (hasWeightEntry fs))
          (snapshot_dirs_for_revision fs (mcOf root model_id)
            (snapsOf root model_id) "main"))) := by
  constructor
  · intro rev h2 h3
    by_cases hmc : pathExists fs (mcOf root model_id) = true
    · by_cases hsn : pathExists fs (snapsOf root model_id) = true
      · rw [is_model_cached_plain_rev fs model_id root rev hplain hmc hsn]
        simp [snapshot_dirs_for_revision, h2, h3]
      · exact is_model_cached_plain_no_snaps fs model_id root (some rev) hplain
          (Bool.eq_false_iff.mpr hsn)
    · exact is_model_cached_plain_no_entry fs model_id root (some rev) hplain
        (Bool.eq_false_iff.mpr hmc)
  · intro hmc hsn
    exact is_model_cached_plain_none fs model_id root hplain hmc hsn

/-- Fully populated cache entry whose refs/snapshots do not include `v1`:
`refs/other` points at snapshot `h1`, which holds a weight file. -/
def fsPopulated : FS :=
  ⟨[⟨["/c", "hub", "models--org--m", "refs", "other"], "h1"⟩,
    ⟨["/c", "hub", "models--org--m", "snapshots", "h1", "model.safetensors"],
      "w"⟩],
   [["/c", "hub", "models--org--m"],
    ["/c", "hub", "models--org--m", "snapshots"],
    ["/c", "hub", "models--org--m", "snapshots", "h1"]]⟩

/-- Witness for C4: the explicit revision `v1` is reported uncached even
though the entry is fully populated, while the no-revision check (which
falls back to scanning snapshots, `refs/main` being absent) is true. -/
theorem revision_resolution_witness :
    is_model_cached fsPopulated "org/m" (some "/c") (some "v1") = false ∧
    is_model_cached fsPopulated "org/m" (some "/c") none = true :=
  ⟨(revision_resolution fsPopulated "org/m" "/c" (by decide)).1 "v1"
      (by decide) (by decide),
   by decide⟩

/-! ### C5: GGUF file resolution -/

/-- The cache entry directory searched by `resolve_gguf_path`. -/
def modelCacheDirOf (model_id : String) (cd : Option String) : List String :=
  [resolve_cache_dir cd, "hub",
    "models--" ++ safeName (parse_gguf_model_spec model_id).1]

/-- The set of files from which `resolve_gguf_path` picks its answer:
case-sensitive quant glob matches when any exist, otherwise the
case-insensitive matches among all `.gguf` entries; every `.gguf` entry
when no quant is given. -/
def ggufCandidates (fs : FS) (model_id : String) (cd : Option String) :
    List (List String) :=
  let mc := modelCacheDirOf model_id cd
  match (parse_gguf_model_spec model_id).2 with
  | some q =>
    let cs := (entriesUnder fs mc).filter (fun p => ggufQuantName q (lastName p))
    if cs.isEmpty then
      (entriesUnder fs mc).filter
        (fun p => ggufAnyName (lastName p) && ggufNameCI q (lastName p))
    else cs
  | none => (entriesUnder fs mc).filter (fun p => ggufAnyName (lastName p))

/-- Unfold `resolve_gguf_path` once the entry directory exists. -/
theorem resolve_gguf_path_unfold (fs : FS) (model_id : String)
    (cd : Option String)
    (hmc : pathExists fs (modelCacheDirOf model_id cd) = true) :
    resolve_gguf_path fs model_id cd =
      (let mc := modelCacheDirOf model_id cd
       let matched := match (parse_gguf_model_spec model_id).2 with
         | some q => sortedGlob fs mc (ggufQuantName q)
         | none => sortedGlob fs mc ggufAnyName
       let matched2 := if matched.isEmpty then
           match (parse_gguf_model_spec model_id).2 with
           | some q => (sortedGlob fs mc ggufAnyName).filter
               (fun p => ggufNameCI q (lastName p))
           | none => []
         else matched
       matched2.head?.map pathString) := by
  simp only [modelCacheDirOf] at hmc ⊢
  simp only [resolve_gguf_path]
  rw [hmc]
  simp

/-- The mapped head of an ascending sort: `none` iff the list is empty,
otherwise the rendered lexicographically-least element. -/
theorem head_of_sortPaths_spec (raw : List (List String)) :
    (raw = [] → (sortPaths raw).head?.map pathString = none) ∧
    (raw ≠ [] → ∃ p ∈ raw,
      (sortPaths raw).head?.map pathString = some (pathString p) ∧
      ∀ y ∈ raw, lePath p y = true) := by
  constructor
  · intro h
    subst h
    rfl
  · intro h
    cases hh : (sortPaths raw).head? with
    | none =>
      exact absurd (sortPaths_eq_nil.mp (List.head?_eq_none_iff.mp hh)) h
    | some p =>
      rcases sortPaths_head_min hh with ⟨hm, hmin⟩
      exact ⟨p, hm, by simp [hh], hmin⟩

/-- The mapped head of the `P`-filtered ascending sort: `none` when no
member satisfies `P`, otherwise the rendered least `P`-member. -/
theorem head_of_filter_sortPaths_spec (raw : List (List String))
    (P : List String → Bool) :
    ((∀ y ∈ raw, ¬ P y = true) →
      ((sortPaths raw).filter P).head?.map pathString = none) ∧
    ((∃ y ∈ raw, P y = true) → ∃ p, p ∈ raw ∧ P p = true ∧
      ((sortPaths raw).filter P).head?.map pathString = some (pathString p) ∧
      ∀ y ∈ raw, P y = true → lePath p y = true) := by
  constructor
  · intro h
    have : (sortPaths raw).filter P = [] :=
      List.filter_eq_nil_iff.mpr (fun a ha => h a (mem_sortPaths.mp ha))
    simp [this]
  · rintro ⟨y, hy, hPy⟩
    cases hh : ((sortPaths raw).filter P).head? with
    | none =>
      have hnil := List.head?_eq_none_iff.mp hh
      have : y ∈ (sortPaths raw).filter P :=
        List.mem_filter.mpr ⟨mem_sortPaths.mpr hy, hPy⟩
      rw [hnil] at this
      exact absurd this (List.not_mem_nil y)
    | some p =>
      rcases filter_sortPaths_head_min hh with ⟨hm, hP, hmin⟩
      exact ⟨p, hm, hP, by simp [hh], hmin⟩

/-- **C5 (amended).** `resolve_gguf_path` returns `none` exactly when the
candidate set is empty, and otherwise the candidate whose rendered path is
lexicographically least — where the candidates prefer case-sensitive
matches of the quant glob and fall back to case-insensitive substring
matches among `.gguf` files (any `.gguf` file when no quant is given). -/
theorem gguf_resolution (fs : FS) (model_id : String) (cd : Option String)
    (hmc : pathExists fs (modelCacheDirOf model_id cd) = true) :
    (ggufCandidates fs model_id cd = [] →
      resolve_gguf_path fs model_id cd = none) ∧
    (ggufCandidates fs model_id cd ≠ [] →
      ∃ p ∈ ggufCandidates fs model_id cd,
        resolve_gguf_path fs model_id cd = some (pathString p) ∧
        ∀ y ∈ ggufCandidates fs model_id cd, lePath p y = true) := by
  have hrw := resolve_gguf_path_unfold fs model_id cd hmc
  cases heq : (parse_gguf_model_spec model_id).2 with
  | none =>
    simp only [ggufCandidates, heq] at *
    rw [hrw]
    simp only [heq, sortedGlob]
    by_cases hraw : (entriesUnder fs (modelCacheDirOf model_id cd)).filter
        (fun p => ggufAnyName (lastName p)) = []
    · constructor
      · intro _
        simp [hraw, sortPaths]
      · intro h
        exact absurd hraw h
    · have hne : sortPaths ((entriesUnder fs (modelCacheDirOf model_id cd)).filter
          (fun p => ggufAnyName (lastName p))) ≠ [] :=
        fun h => hraw (sortPaths_eq_nil.mp h)
      have hE : (sortPaths ((entriesUnder fs (modelCacheDirOf model_id cd)).filter
          (fun p => ggufAnyName (lastName p)))).isEmpty = false := by
        simp [List.isEmpty_iff, hne]
      rw [hE]
      constructor
      · intro h
        exact absurd h hraw
      · intro _
        simpa using (head_of_sortPaths_spec _).2 hraw
  | some q =>
    simp only [ggufCandidates, heq] at *
    rw [hrw]
    simp only [heq, sortedGlob]
    by_cases hcs : (entriesUnder fs (modelCacheDirOf model_id cd)).filter
        (fun p => ggufQuantName q (lastName p)) = []
    · -- case-sensitive glob empty: fall back to the case-insensitive filter
      have hE : (sortPaths ((entriesUnder fs (modelCacheDirOf model_id cd)).filter
          (fun p => ggufQuantName q (lastName p)))).isEmpty = true := by
        simp [List.isEmpty_iff, sortPaths_eq_nil, hcs]
      rw [hE]
      have hcsE : ((entriesUnder fs (modelCacheDirOf model_id cd)).filter
          (fun p => ggufQuantName q (lastName p))).isEmpty = true := by
        simp [List.isEmpty_iff, hcs]
      rw [hcsE]
      simp only [if_true]
      constructor
      · intro hc
        refine (head_of_filter_sortPaths_spec _ _).1 ?_
        intro y hy hCI
        rcases List.mem_filter.mp hy with ⟨hyE, hyAny⟩
        have : y ∈ (entriesUnder fs (modelCacheDirOf model_id cd)).filter
            (fun p => ggufAnyName (lastName p) && ggufNameCI q (lastName p)) :=
          List.mem_filter.mpr ⟨hyE, by simp [hyAny, hCI]⟩
        rw [hc] at this
        exact absurd this (List.not_mem_nil y)
      · intro hc
        rcases List.exists_mem_of_ne_nil _ hc with ⟨y, hy⟩
        rcases List.mem_filter.mp hy with ⟨hyE, hyP⟩
        simp only [Bool.and_eq_true] at hyP
        rcases hyP with ⟨hyAny, hyCI⟩
        rcases (head_of_filter_sortPaths_spec
            ((entriesUnder fs (modelCacheDirOf model_id cd)).filter
              (fun p => ggufAnyName (lastName p)))
            (fun p => ggufNameCI q (lastName p))).2
            ⟨y, List.mem_filter.mpr ⟨hyE, hyAny⟩, hyCI⟩ with
          ⟨p, hpA, hpCI, hphead, hpmin⟩
        rcases List.mem_filter.mp hpA with ⟨hpE, hpAny⟩
        refine ⟨p, List.mem_filter.mpr ⟨hpE, by simp [hpAny, hpCI]⟩, hphead, ?_⟩
        intro z hz
        rcases List.mem_filter.mp hz with ⟨hzE, hzP⟩
        simp only [Bool.and_eq_true] at hzP
        rcases hzP with ⟨hzAny, hzCI⟩
        exact hpmin z (List.mem_filter.mpr ⟨hzE, hzAny⟩) hzCI
    · -- case-sensitive glob nonempty: it wins
      have hE : (sortPaths ((entriesUnder fs (modelCacheDirOf model_id cd)).filter
          (fun p => ggufQuantName q (lastName p)))).isEmpty = false := by
        simp [List.isEmpty_iff, sortPaths_eq_nil, hcs]
      rw [hE]
      have hcsE : ((entriesUnder fs (modelCacheDirOf model_id cd)).filter
          (fun p => ggufQuantName q (lastName p))).isEmpty = false := by
        simp [List.isEmpty_iff, hcs]
      rw [hcsE]
      simp only [Bool.false_eq_true, if_false]
      constructor
      · intro hc
        exact absurd hc hcs
      · intro _
        simpa using (head_of_sortPaths_spec _).2 hcs

/-- Cache entry holding two shards: `q4_k_m.gguf` (lower-case) and
`x-Q4_K_M.gguf` (exact-case). -/
def fsTwoShards : FS :=
  ⟨[⟨["/c", "hub", "models--Qwen--Q-GGUF", "snapshots", "abc", "q4_k_m.gguf"],
      "g"⟩,
    ⟨["/c", "hub", "models--Qwen--Q-GGUF", "snapshots", "abc",
        "x-Q4_K_M.gguf"], "g"⟩],
   [["/c", "hub", "models--Qwen--Q-GGUF"],
    ["/c", "hub", "models--Qwen--Q-GGUF", "snapshots"],
    ["/c", "hub", "models--Qwen--Q-GGUF", "snapshots", "abc"]]⟩

/-- Counterexample to C5 as stated: for quant tag `Q4_K_M`, both cached
files match case-insensitively and `.../q4_k_m.gguf` is the
lexicographically smaller path, yet `resolve_gguf_path` returns
`.../x-Q4_K_M.gguf`, because an exact-case glob match takes priority over
the case-insensitive fallback. -/
theorem gguf_resolution_counterexample :
    ggufNameCI "Q4_K_M" "q4_k_m.gguf" = true ∧
    ggufNameCI "Q4_K_M" "x-Q4_K_M.gguf" = true ∧
    ltStr "/c/hub/models--Qwen--Q-GGUF/snapshots/abc/q4_k_m.gguf"
      "/c/hub/models--Qwen--Q-GGUF/snapshots/abc/x-Q4_K_M.gguf" = true ∧
    resolve_gguf_path fsTwoShards "Qwen/Q-GGUF:Q4_K_M" (some "/c") =
      some "/c/hub/models--Qwen--Q-GGUF/snapshots/abc/x-Q4_K_M.gguf" := by
  refine ⟨by decide, by decide, by decide, by decide⟩

/-- Witness for the amended C5: the empty-candidate branch applied at a
cache holding only a non-matching quant file. -/
def fsWrongQuant : FS :=
  ⟨[⟨["/c", "hub", "models--Qwen--Q-GGUF", "snapshots", "abc",
      "qwen-q8_0.gguf"], "g"⟩],
   [["/c", "hub", "models--Qwen--Q-GGUF"],
    ["/c", "hub", "models--Qwen--Q-GGUF", "snapshots"],
    ["/c", "hub", "models--Qwen--Q-GGUF", "snapshots", "abc"]]⟩

theorem gguf_resolution_witness :
    resolve_gguf_path fsWrongQuant "Qwen/Q-GGUF:Q4_K_M" (some "/c") = none ∧
    resolve_gguf_path fsTwoShards "Qwen/Q-GGUF:Q4_K_M" (some "/c") =
      some (pathString ["/c", "hub", "models--Qwen--Q-GGUF", "snapshots",
        "abc", "x-Q4_K_M.gguf"]) := by
  constructor
  · exact (gguf_resolution fsWrongQuant "Qwen/Q-GGUF:Q4_K_M" (some "/c")
      (by decide)).1 (by decide)
  · have h := (gguf_resolution fsTwoShards "Qwen/Q-GGUF:Q4_K_M" (some "/c")
      (by decide)).2 (by decide)
    rcases h with ⟨p, hp, hres, _⟩
    have hc : ggufCandidates fsTwoShards "Qwen/Q-GGUF:Q4_K_M" (some "/c") =
        [["/c", "hub", "models--Qwen--Q-GGUF", "snapshots", "abc",
          "x-Q4_K_M.gguf"]] := by decide
    rw [hc] at hp
    rw [← List.mem_singleton.mp hp]
    exact hres

/-! ### C1: ensure-script selection -/

/-- A world with empty filesystem, successful downloads and successful
remote operations, used to instantiate trace statements. -/
def trivialWorld : World :=
  ⟨⟨[], []⟩, fun _ _ _ => 0, fun _ => true, fun _ => true, fun _ => true⟩

/-- A world whose underlying `snapshot_download` fails with exit code 1. -/
def failWorld : World :=
  ⟨⟨[], []⟩, fun _ _ _ => 1, fun _ => true, fun _ => true, fun _ => true⟩

/-- Counterexample to C1 as stated: `"TheBloke/Llama-GGUF:Q4_K_M"` is a
GGUF spec, yet the independent-pull step (`sync_model_to_hosts`) runs the
generic `model_sync.sh` script templated with the raw model id — it never
consults `is_gguf` and never builds the GGUF-specific script. -/
theorem ensure_script_selection_counterexample :
    is_gguf_model "TheBloke/Llama-GGUF:Q4_K_M" = true ∧
    (sync_model_to_hosts trivialWorld "TheBloke/Llama-GGUF:Q4_K_M" ["host1"]
        (some "/c") none false).2 =
      [Event.runScript ["host1"]
        (BuiltScript.modelSync "TheBloke/Llama-GGUF:Q4_K_M" "/c" "")] := by
  refine ⟨by decide, by decide⟩

/-- **C1 (amended).** The head-topology "ensure present" step selects the
fetch script via `is_gguf`: GGUF specs get `model_sync_gguf.sh` with the
parsed repository id and quant pattern, other ids get `model_sync.sh`; the
revision flag fragment is empty exactly when no revision is given.  The
independent-pull step (`sync_model_to_hosts`) always runs the generic
`model_sync.sh` regardless of `is_gguf`.  The local acquisition step
dispatches via `is_gguf` in-process: for GGUF specs `download_model`
fetches the parsed repository with a quant `allow_patterns` allowlist
instead of the whole repository. -/
theorem ensure_script_selection (model_id cache : String)
    (revision : Option String) (w : World) (hosts : List String)
    (cache_dir : Option String) :
    head_ensure_script model_id cache revision =
      (if is_gguf_model model_id then
        BuiltScript.modelSyncGguf (parse_gguf_model_spec model_id).1
          ((parse_gguf_model_spec model_id).2.getD "") cache
          (revisionFlag revision)
      else BuiltScript.modelSync model_id cache (revisionFlag revision)) ∧
    revisionFlag none = "" ∧
    (∀ r : String, revisionFlag (some r) = "--revision " ++ r ++ " ") ∧
    (sync_model_to_hosts w model_id hosts cache_dir revision false).2 =
      [Event.runScript hosts (BuiltScript.modelSync model_id
        (resolve_cache_dir cache_dir) (revisionFlag revision))] ∧
    (download_model w model_id cache_dir revision false).2 =
      (if is_gguf_model model_id then
        [Event.cacheCheck model_id,
         Event.snapshotDownload (parse_gguf_model_spec model_id).1 revision
           ((parse_gguf_model_spec model_id).2.map
             (fun v => ["*" ++ v ++ "*"]))]
      else
        [Event.cacheCheck model_id,
         Event.snapshotDownload model_id revision none]) := by
  refine ⟨rfl, rfl, fun r => rfl, rfl, ?_⟩
  by_cases h : is_gguf_model model_id <;>
    simp [download_model, download_gguf, h]

/-! ### C2: abort of the local distribution on download failure -/

/-- The trace of `download_model` never contains a fan-out event (remote
script run or rsync). -/
theorem download_trace_no_fanout (w : World) (model_id : String)
    (cache_dir revision : Option String) (dry_run : Bool) :
    (download_model w model_id cache_dir revision dry_run).2.all
      (fun e => !isFanoutEvent e) = true := by
  by_cases h : is_gguf_model model_id <;>
    cases dry_run <;>
    simp [download_model, download_gguf, h, isFanoutEvent]

/-- **C2.** If the local acquisition step fails (non-zero exit),
`distribute_model_from_local` returns the full input host list as the
failed set and its trace is the download trace alone, which contains no
remote script run (permission fix-up) and no rsync. -/
theorem distribute_local_abort (w : World) (model_id : String)
    (hosts : List String) (cache_dir revision : Option String)
    (dry_run : Bool) (transfer_hosts : Option (List String))
    (_hne : hosts ≠ [])
    (hdl : (download_model w model_id (some (resolve_cache_dir cache_dir))
        revision dry_run).1 ≠ 0) :
    distribute_model_from_local w model_id hosts cache_dir revision dry_run
        transfer_hosts =
      (hosts, (download_model w model_id (some (resolve_cache_dir cache_dir))
        revision dry_run).2) ∧
    (distribute_model_from_local w model_id hosts cache_dir revision dry_run
        transfer_hosts).2.all (fun e => !isFanoutEvent e) = true := by
  have h1 : distribute_model_from_local w model_id hosts cache_dir revision
      dry_run transfer_hosts =
      (hosts, (download_model w model_id (some (resolve_cache_dir cache_dir))
        revision dry_run).2) := by
    simp [distribute_model_from_local, hdl]
  refine ⟨h1, ?_⟩
  rw [h1]
  exact download_trace_no_fanout w model_id (some (resolve_cache_dir cache_dir))
    revision dry_run

/-- Witness for C2 at a failing download with two hosts. -/
theorem distribute_local_abort_witness :
    distribute_model_from_local failWorld "org/m" ["h1", "h2"] (some "/c")
        none false none =
      (["h1", "h2"],
       (download_model failWorld "org/m" (some "/c") none false).2) :=
  (distribute_local_abort failWorld "org/m" ["h1", "h2"] (some "/c") none
      false none (by decide) (by decide)).1

/-! ### C8: dry-run short-circuit -/

/-- All-success synthetic results map to an empty failure list. -/
theorem map_transfer_failures_success (hs xfer mgmt : List String) :
    map_transfer_failures (hs.map (fun h => ⟨h, true⟩)) xfer mgmt = [] := by
  induction hs with
  | nil => rfl
  | cons a t _ih => simp [map_transfer_failures]


/-- **C8.** With `dry_run` set, `download_model` returns exit code 0 with
an empty trace (no network call, no cache inspection), and
`distribute_model_from_local` returns an empty failed-host list with an
empty trace (no permission fix-up, no rsync). -/
theorem dry_run_short_circuit (w : World) (model_id : String)
    (cache_dir revision : Option String) (hosts : List String)
    (transfer_hosts : Option (List String)) :
    download_model w model_id cache_dir revision true = (0, []) ∧
    distribute_model_from_local w model_id hosts cache_dir revision true
      transfer_hosts = ([], []) := by
  have hdl : ∀ cd : Option String,
      download_model w model_id cd revision true = (0, []) := by
    intro cd
    by_cases h : is_gguf_model model_id <;>
      simp [download_model, download_gguf, h]
  refine ⟨hdl cache_dir, ?_⟩
  simp only [distribute_model_from_local, hdl]
  cases hosts with
  | nil => simp
  | cons a t =>
    simp [try_fix_remote_permissions, run_remote_scripts_parallel,
      run_rsync_parallel, map_transfer_failures_success]

/-! ### C10: empty host list still downloads -/

/-- **C10.** `distribute_model_from_local` with an empty host list runs
the local download step and returns the empty failed-host list whether
that download succeeds or fails; its trace is exactly the download trace,
which contains no permission fix-up and no rsync. -/
theorem distribute_local_empty_hosts (w : World) (model_id : String)
    (cache_dir revision : Option String) (dry_run : Bool)
    (transfer_hosts : Option (List String)) :
    distribute_model_from_local w model_id [] cache_dir revision dry_run
        transfer_hosts =
      ([], (download_model w model_id (some (resolve_cache_dir cache_dir))
        revision dry_run).2) ∧
    (download_model w model_id (some (resolve_cache_dir cache_dir)) revision
      dry_run).2.all (fun e => !isFanoutEvent e) = true := by
  constructor
  · by_cases h : (download_model w model_id (some (resolve_cache_dir cache_dir))
        revision dry_run).1 ≠ 0
    · simp [distribute_model_from_local, h]
    · simp [distribute_model_from_local, h]
  · exact download_trace_no_fanout w model_id (some (resolve_cache_dir cache_dir))
      revision dry_run

/-! ### C9: privileged-fallback runner -/

theorem mapGet?_replace_ne (m : List (String × SSHResult)) (k : String)
    (v : SSHResult) (h : String) (hne : (h == k) = false) :
    mapGet? (m.map (fun e => if e.1 == k then (k, v) else e)) h =
      mapGet? m h := by
  induction m with
  | nil => rfl
  | cons e es ih =>
    have hkh : (k == h) = false := by
      refine beq_eq_false_iff_ne.mpr ?_
      intro e2
      exact (beq_eq_false_iff_ne.mp hne) e2.symm
    by_cases hek : (e.1 == k) = true
    · have he1 : e.1 = k := beq_iff_eq.mp hek
      simp only [List.map_cons, hek, if_true, mapGet?, List.find?]
      rw [show ((k, v).1 == h) = false from hkh, show (e.1 == h) = false by
        rw [he1]; exact hkh]
      exact ih
    · have hek2 : (e.1 == k) = false := Bool.eq_false_iff.mpr hek
      simp only [List.map_cons, hek2, Bool.false_eq_true, if_false, mapGet?,
        List.find?]
      cases heh : e.1 == h
      · exact ih
      · rfl

theorem mapGet?_append_single_ne (m : List (String × SSHResult)) (k : String)
    (v : SSHResult) (h : String) (hne : (h == k) = false) :
    mapGet? (m ++ [(k, v)]) h = mapGet? m h := by
  have hkh : (k == h) = false := by
    refine beq_eq_false_iff_ne.mpr ?_
    intro e2
    exact (beq_eq_false_iff_ne.mp hne) e2.symm
  induction m with
  | nil =>
    simp only [List.nil_append, mapGet?, List.find?, hkh]
  | cons e es ih =>
    simp only [List.cons_append, mapGet?, List.find?]
    cases heh : e.1 == h
    · exact ih
    · rfl

/-- Python dict update is invisible to lookups of other keys. -/
theorem mapGet?_set_ne (m : List (String × SSHResult)) (k : String)
    (v : SSHResult) (h : String) (hne : (h == k) = false) :
    mapGet? (mapSet m k v) h = mapGet? m h := by
  simp only [mapSet]
  split
  · exact mapGet?_replace_ne m k v h hne
  · exact mapGet?_append_single_ne m k v h hne

theorem mapGet?_replace_eq (m : List (String × SSHResult)) (k : String)
    (v : SSHResult) (hany : m.any (fun e => e.1 == k) = true) :
    mapGet? (m.map (fun e => if e.1 == k then (k, v) else e)) k = some v := by
  induction m with
  | nil => simp at hany
  | cons e es ih =>
    by_cases hek : (e.1 == k) = true
    · simp only [List.map_cons, hek, if_true, mapGet?, List.find?,
        beq_self_eq_true]
      rfl
    · have hek2 : (e.1 == k) = false := Bool.eq_false_iff.mpr hek
      have hany2 : es.any (fun e => e.1 == k) = true := by
        simp only [List.any_cons, hek2, Bool.false_or] at hany
        exact hany
      simp only [List.map_cons, hek2, Bool.false_eq_true, if_false, mapGet?,
        List.find?, hek2]
      exact ih hany2

theorem mapGet?_append_single_eq (m : List (String × SSHResult)) (k : String)
    (v : SSHResult) (hany : m.any (fun e => e.1 == k) = false) :
    mapGet? (m ++ [(k, v)]) k = some v := by
  induction m with
  | nil =>
    simp only [List.nil_append, mapGet?, List.find?, beq_self_eq_true]
    rfl
  | cons e es ih =>
    simp only [List.any_cons, Bool.or_eq_false_iff] at hany
    simp only [List.cons_append, mapGet?, List.find?, hany.1]
    exact ih hany.2

/-- Python dict update is seen by a lookup of the same key. -/
theorem mapGet?_set_eq (m : List (String × SSHResult)) (k : String)
    (v : SSHResult) : mapGet? (mapSet m k v) k = some v := by
  simp only [mapSet]
  split
  · exact mapGet?_replace_eq m k v (by assumption)
  · rename_i hany
    exact mapGet?_append_single_eq m k v (Bool.eq_false_iff.mpr hany)

/-- The partition loop collects exactly the unsuccessful hosts, in order. -/
theorem sudoPartition_aux (hosts : List String) (p : String → Bool)
    (acc : List (String × SSHResult) × List String) :
    ((hosts.map (fun h => (⟨h, p h⟩ : SSHResult))).foldl sudoPartitionStep
        acc).2 =
      acc.2 ++ hosts.filter (fun h => !(p h)) := by
  induction hosts generalizing acc with
  | nil => simp
  | cons a t ih =>
    simp only [List.map_cons, List.foldl_cons, sudoPartitionStep]
    cases hpa : p a <;>
      simp [hpa, ih, List.filter_cons]

/-- A host that failed phase 1 is absent from the phase-1 result map. -/
theorem sudoPartition_get_none_aux (hosts : List String) (p : String → Bool)
    (acc : List (String × SSHResult) × List String) (h : String)
    (hph : p h = false) (hacc : mapGet? acc.1 h = none) :
    mapGet? ((hosts.map (fun x => (⟨x, p x⟩ : SSHResult))).foldl
      sudoPartitionStep acc).1 h = none := by
  induction hosts generalizing acc with
  | nil => exact hacc
  | cons a t ih =>
    simp only [List.map_cons, List.foldl_cons, sudoPartitionStep]
    cases hpa : p a
    · simp only [Bool.false_eq_true, if_false]
      exact ih _ hacc
    · simp only [if_true]
      refine ih _ ?_
      have hne : (h == a) = false := by
        refine beq_eq_false_iff_ne.mpr ?_
        intro e
        subst e
        rw [hph] at hpa
        cases hpa
      rw [mapGet?_set_ne _ _ _ _ hne]
      exact hacc

/-- The retry loop (not dry) emits one `sudoRun` event per failed host. -/
theorem sudoRetry_aux_trace (w : World) (fb : String) (l : List String)
    (acc : List (String × SSHResult) × List Event) :
    ((l.foldl (sudoRetryStep w fb false) acc)).2 =
      acc.2 ++ l.map Event.sudoRun := by
  induction l generalizing acc with
  | nil => simp
  | cons a t ih =>
    simp [sudoRetryStep, run_remote_sudo_script, ih]

/-- The retry loop leaves lookups of non-retried hosts unchanged. -/
theorem sudoRetry_get_not_mem (w : World) (fb : String) (l : List String)
    (acc : List (String × SSHResult) × List Event) (h : String)
    (hnm : h ∉ l) :
    mapGet? ((l.foldl (sudoRetryStep w fb false) acc)).1 h =
      mapGet? acc.1 h := by
  induction l generalizing acc with
  | nil => rfl
  | cons a t ih =>
    have hna : h ≠ a := fun e => hnm (e ▸ List.mem_cons_self a t)
    have hnt : h ∉ t := fun e => hnm (List.mem_cons_of_mem a e)
    simp only [List.foldl_cons, sudoRetryStep]
    rw [ih _ hnt, mapGet?_set_ne _ _ _ _ (beq_eq_false_iff_ne.mpr hna)]

/-- After the retry loop, every retried host's recorded result is the
password-based fallback result. -/
theorem sudoRetry_get_mem (w : World) (fb : String) (l : List String)
    (acc : List (String × SSHResult) × List Event) (h : String)
    (hm : h ∈ l) :
    mapGet? ((l.foldl (sudoRetryStep w fb false) acc)).1 h =
      some ⟨h, w.sudoSuccess h⟩ := by
  induction l generalizing acc with
  | nil => exact absurd hm (List.not_mem_nil h)
  | cons a t ih =>
    by_cases hmt : h ∈ t
    · simp only [List.foldl_cons]
      exact ih _ hmt
    · have hha : h = a := by
        rcases List.mem_cons.mp hm with e | e
        · exact e
        · exact absurd e hmt
      subst hha
      simp only [List.foldl_cons, sudoRetryStep, run_remote_sudo_script,
        Bool.false_eq_true, if_false]
      rw [sudoRetry_get_not_mem w fb t _ h hmt, mapGet?_set_eq]

/-- **C9.** `run_with_sudo_fallback` first runs the non-interactive script
on all hosts in parallel, then retries the phase-1 failures sequentially
with the password-based fallback exactly when a password was supplied and
this is not a dry run; `still_failed` is the phase-1 failures whose final
recorded result is absent or unsuccessful — so with no password or in a
dry run it equals all phase-1 failures — and no password prompt is ever
issued. -/
theorem sudo_fallback_spec (w : World) (host_list : List String)
    (script fallback_script : String) (dry_run : Bool)
    (sudo_password : Option String) :
    (run_with_sudo_fallback w host_list script fallback_script dry_run
        sudo_password).2 =
      (if dry_run then [] else
        [Event.runScript host_list (BuiltScript.raw script)]) ++
      (if !(host_list.filter
            (fun h => !(dry_run || w.scriptSuccess h))).isEmpty
          && !dry_run && sudo_password.isSome then
        (host_list.filter (fun h => !(dry_run || w.scriptSuccess h))).map
          Event.sudoRun
      else []) ∧
    (run_with_sudo_fallback w host_list script fallback_script dry_run
        sudo_password).1.2 =
      (if !(host_list.filter
            (fun h => !(dry_run || w.scriptSuccess h))).isEmpty
          && !dry_run && sudo_password.isSome then
        (host_list.filter (fun h => !(dry_run || w.scriptSuccess h))).filter
          (fun h => !(w.sudoSuccess h))
      else host_list.filter (fun h => !(dry_run || w.scriptSuccess h))) ∧
    ((sudo_password = none ∨ dry_run = true) →
      (run_with_sudo_fallback w host_list script fallback_script dry_run
        sudo_password).1.2 =
        host_list.filter (fun h => !(dry_run || w.scriptSuccess h))) ∧
    Event.promptPassword ∉ (run_with_sudo_fallback w host_list script
      fallback_script dry_run sudo_password).2 := by
  have hpr1 : (run_remote_scripts_parallel w host_list (BuiltScript.raw script)
      dry_run).1 =
      host_list.map (fun h => ⟨h, dry_run || w.scriptSuccess h⟩) := by
    cases dry_run <;> simp [run_remote_scripts_parallel]
  have hpr2 : (run_remote_scripts_parallel w host_list (BuiltScript.raw script)
      dry_run).2 =
      (if dry_run then [] else
        [Event.runScript host_list (BuiltScript.raw script)]) := by
    cases dry_run <;> simp [run_remote_scripts_parallel]
  have hfailed : (sudoPartition (run_remote_scripts_parallel w host_list
      (BuiltScript.raw script) dry_run).1).2 =
      host_list.filter (fun h => !(dry_run || w.scriptSuccess h)) := by
    rw [hpr1]
    simpa [sudoPartition] using sudoPartition_aux host_list
      (fun h => dry_run || w.scriptSuccess h) ([], [])
  have hget0 : ∀ h ∈ host_list.filter
      (fun h => !(dry_run || w.scriptSuccess h)),
      mapGet? (sudoPartition (run_remote_scripts_parallel w host_list
        (BuiltScript.raw script) dry_run).1).1 h = none := by
    intro h hm
    rcases List.mem_filter.mp hm with ⟨_, hp⟩
    rw [hpr1]
    exact sudoPartition_get_none_aux host_list _ ([], []) h
      (by simpa using hp) rfl
  simp only [run_with_sudo_fallback]
  rw [hfailed, hpr2]
  by_cases hcond : (!(host_list.filter
      (fun h => !(dry_run || w.scriptSuccess h))).isEmpty
      && !dry_run && sudo_password.isSome) = true
  · -- the password retry runs
    have hcond2 := hcond
    simp only [Bool.and_eq_true, Bool.not_eq_true'] at hcond2
    obtain ⟨⟨-, hdr⟩, hpw⟩ := hcond2
    subst hdr
    rw [if_pos hcond, if_pos hcond, if_pos hcond]
    refine ⟨?_, ?_, ?_, ?_⟩
    · simp only [sudoRetry, sudoRetry_aux_trace]
      simp
    · simp only [sudoRetry]
      refine List.filter_congr ?_
      intro a ha
      rw [sudoRetry_get_mem w fallback_script _ _ a ha]
    · intro hc
      rcases hc with hc | hc
      · rw [hc] at hpw
        cases hpw
      · cases hc
    · simp only [sudoRetry, sudoRetry_aux_trace]
      simp
  · -- no retry: phase-1 failures all remain
    rw [if_neg hcond, if_neg hcond, if_neg hcond]
    have hstill : (host_list.filter
        (fun h => !(dry_run || w.scriptSuccess h))).filter
        (fun h => match mapGet? (sudoPartition (run_remote_scripts_parallel w
          host_list (BuiltScript.raw script) dry_run).1).1 h with
          | none => true
          | some r => !r.success) =
        host_list.filter (fun h => !(dry_run || w.scriptSuccess h)) := by
      refine List.filter_eq_self.mpr ?_
      intro a ha
      rw [hget0 a ha]
    refine ⟨by simp, hstill, fun _ => hstill, ?_⟩
    cases dry_run <;> simp

/-- A world where only host `h1` passes the non-interactive script and the
password-based fallback fails everywhere. -/
def mixedWorld : World :=
  ⟨⟨[], []⟩, fun _ _ _ => 0, fun h => h == "h1", fun _ => true, fun _ => false⟩

/-- Witness for C9 with no password supplied: `still_failed` equals all
phase-1 failures. -/
theorem sudo_fallback_spec_witness :
    (run_with_sudo_fallback mixedWorld ["h1", "h2"] "s" "f" false
        none).1.2 = ["h2"] := by
  have h := (sudo_fallback_spec mixedWorld ["h1", "h2"] "s" "f" false
    none).2.2.1 (Or.inl rfl)
  rw [h]
  decide

/-! ### C6/C7: pending-operation ledger lemmas -/

theorem startsSeg_append (l m : List Char) : startsSeg l (l ++ m) = true := by
  induction l with
  | nil => rfl
  | cons x xs ih => simp [startsSeg, ih]

theorem data_append (s t : String) : (s ++ t).data = s.data ++ t.data := by
  cases s
  cases t
  rfl

/-- Appending a suffix makes `endswith` true. -/
theorem endsWithStr_append_self (s t : String) :
    endsWithStr (s ++ t) t = true := by
  simp only [endsWithStr, data_append, List.reverse_append]
  exact startsSeg_append t.data.reverse s.data.reverse

/-- Every lock path ends in `.json`. -/
theorem lock_path_json (cid op : String) :
    endsWithStr (lock_path cid op) ".json" = true :=
  endsWithStr_append_self _ ".json"

/-- One sweep step splits into the accumulator plus its own contribution. -/
theorem sweepStep_split (now : Nat) (alive : Nat → Bool)
    (acc : List PendingView × List (String × LockFile))
    (e : String × LockFile) :
    sweepStep now alive acc e =
      (acc.1 ++ (sweepStep now alive ([], []) e).1,
       acc.2 ++ (sweepStep now alive ([], []) e).2) := by
  obtain ⟨k, f⟩ := e
  by_cases hj : endsWithStr k ".json" = true
  · cases f with
    | corrupt => simp [sweepStep, hj]
    | record i =>
      cases ha : alive i.pid <;> simp [sweepStep, hj, ha]
  · have hj2 : endsWithStr k ".json" = false := Bool.eq_false_iff.mpr hj
    simp [sweepStep, hj2]

/-- The sweep fold splits over its accumulator. -/
theorem sweep_fold_split (now : Nat) (alive : Nat → Bool)
    (l : List (String × LockFile))
    (acc : List PendingView × List (String × LockFile)) :
    l.foldl (sweepStep now alive) acc =
      (acc.1 ++ (l.foldl (sweepStep now alive) ([], [])).1,
       acc.2 ++ (l.foldl (sweepStep now alive) ([], [])).2) := by
  induction l generalizing acc with
  | nil => simp
  | cons e t ih =>
    rw [List.foldl_cons, List.foldl_cons,
      ih (sweepStep now alive acc e),
      ih (sweepStep now alive ([], []) e),
      sweepStep_split now alive acc e]
    simp [List.append_assoc]

/-- Unfold one ledger entry of the sweep. -/
theorem list_pending_cons (now : Nat) (alive : Nat → Bool)
    (e : String × LockFile) (rest : List (String × LockFile)) :
    list_pending_ops now alive ⟨e :: rest⟩ =
      ((sweepStep now alive ([], []) e).1 ++
        (list_pending_ops now alive ⟨rest⟩).1,
       ⟨(sweepStep now alive ([], []) e).2 ++
        (list_pending_ops now alive ⟨rest⟩).2.entries⟩) := by
  simp only [list_pending_ops, List.foldl_cons]
  rw [sweep_fold_split now alive rest (sweepStep now alive ([], []) e)]

/-- The sweep distributes over an append of ledger entries. -/
theorem list_pending_append (now : Nat) (alive : Nat → Bool)
    (l1 l2 : List (String × LockFile)) :
    list_pending_ops now alive ⟨l1 ++ l2⟩ =
      ((list_pending_ops now alive ⟨l1⟩).1 ++
        (list_pending_ops now alive ⟨l2⟩).1,
       ⟨(list_pending_ops now alive ⟨l1⟩).2.entries ++
        (list_pending_ops now alive ⟨l2⟩).2.entries⟩) := by
  simp only [list_pending_ops, List.foldl_append]
  rw [sweep_fold_split now alive l2 (l1.foldl (sweepStep now alive) ([], []))]

/-- Entries recording a different (cluster id, tag) pair contribute no
matching view. -/
theorem sweep_out_no_match (now : Nat) (alive : Nat → Bool)
    (cid op : String) (l : List (String × LockFile))
    (hno : ∀ e ∈ l, pairMatches cid op e.2 = false) :
    ((list_pending_ops now alive ⟨l⟩).1).filter (viewMatches cid op) = [] := by
  induction l with
  | nil => rfl
  | cons e t ih =>
    rw [list_pending_cons, List.filter_append,
      ih (fun x hx => hno x (List.mem_cons_of_mem _ hx))]
    have he := hno e (List.mem_cons_self e t)
    obtain ⟨k, f⟩ := e
    by_cases hj : endsWithStr k ".json" = true
    · cases f with
      | corrupt => simp [sweepStep, hj]
      | record i =>
        cases ha : alive i.pid
        · simp [sweepStep, hj, ha]
        · simp only [pairMatches] at he
          simp [sweepStep, hj, ha, viewMatches, he]
    · have hj2 : endsWithStr k ".json" = false := Bool.eq_false_iff.mpr hj
      simp [sweepStep, hj2]

/-- Every view the sweep returns records a live pid. -/
theorem sweep_out_alive (now : Nat) (alive : Nat → Bool)
    (l : List (String × LockFile)) :
    ∀ v ∈ (list_pending_ops now alive ⟨l⟩).1, alive v.info.pid = true := by
  induction l with
  | nil => intro v hv; cases hv
  | cons e t ih =>
    intro v hv
    rw [list_pending_cons] at hv
    rcases List.mem_append.mp hv with hv | hv
    · obtain ⟨k, f⟩ := e
      by_cases hj : endsWithStr k ".json" = true
      · cases f with
        | corrupt => simp [sweepStep, hj] at hv
        | record i =>
          cases ha : alive i.pid
          · simp [sweepStep, hj, ha] at hv
          · simp only [sweepStep, hj, Bool.not_true, Bool.false_eq_true,
              if_false, ha, List.nil_append] at hv
            rcases List.mem_singleton.mp hv with rfl
            exact ha
      · have hj2 : endsWithStr k ".json" = false := Bool.eq_false_iff.mpr hj
        simp [sweepStep, hj2] at hv
    · exact ih v hv

/-- Every `.json` entry the sweep keeps is a record with a live pid:
corrupt files and dead-owner records are deleted. -/
theorem sweep_keep_live (now : Nat) (alive : Nat → Bool)
    (l : List (String × LockFile)) :
    ∀ e ∈ (list_pending_ops now alive ⟨l⟩).2.entries,
      endsWithStr e.1 ".json" = true →
      ∃ i, e.2 = LockFile.record i ∧ alive i.pid = true := by
  induction l with
  | nil => intro e he; cases he
  | cons x t ih =>
    intro e he hjs
    rw [list_pending_cons] at he
    rcases List.mem_append.mp he with he | he
    · obtain ⟨k, f⟩ := x
      by_cases hj : endsWithStr k ".json" = true
      · cases f with
        | corrupt => simp [sweepStep, hj] at he
        | record i =>
          cases ha : alive i.pid
          · simp [sweepStep, hj, ha] at he
          · simp only [sweepStep, hj, Bool.not_true, Bool.false_eq_true,
              if_false, ha, List.nil_append] at he
            rcases List.mem_singleton.mp he with rfl
            exact ⟨i, rfl, ha⟩
      · have hj2 : endsWithStr k ".json" = false := Bool.eq_false_iff.mpr hj
        simp only [sweepStep, hj2, Bool.not_false, if_true,
          List.nil_append] at he
        rcases List.mem_singleton.mp he with rfl
        rw [hj2] at hjs
        cases hjs
    · exact ih e he hjs

/-- **C6.** Ledger round trip and sweep-on-read: after `create_pending_op`
in a live process, `list_pending_ops` returns exactly one record for the
(cluster id, tag) pair, carrying the recorded fields and a non-negative
elapsed time; after `remove_pending_op` it returns none for the pair; and
the sweep returns only live-pid records while deleting every corrupt file
and dead-owner record from the ledger. -/
theorem pending_ops_round_trip (L L1 : Ledger) (p : String)
    (alive : Nat → Bool)
    (mypid now1 now2 : Nat) (cid op recipe model image : String)
    (hostsL : List String)
    (halive : alive mypid = true)
    (hmono : now1 ≤ now2)
    (hother : ∀ e ∈ L.entries, e.1 ≠ lock_path cid op →
      pairMatches cid op e.2 = false)
    (hcreate : create_pending_op false false mypid now1 L cid op recipe model
      image hostsL = Except.ok (p, L1)) :
    ((list_pending_ops now2 alive L1).1.filter (viewMatches cid op) =
      [⟨⟨cid, op, mypid, now1, recipe, model, image, hostsL⟩,
        (now2 : Int) - (now1 : Int)⟩] ∧
      0 ≤ (now2 : Int) - (now1 : Int)) ∧
    (list_pending_ops now2 alive
        (remove_pending_op false L1 cid op)).1.filter
      (viewMatches cid op) = [] ∧
    (∀ v ∈ (list_pending_ops now2 alive L).1, alive v.info.pid = true) ∧
    (∀ e ∈ (list_pending_ops now2 alive L).2.entries,
      endsWithStr e.1 ".json" = true →
      ∃ i, e.2 = LockFile.record i ∧ alive i.pid = true) := by
  have hfiltered : ∀ e ∈ L.entries.filter
      (fun e => !(e.1 == lock_path cid op)),
      pairMatches cid op e.2 = false := by
    intro e he
    rcases List.mem_filter.mp he with ⟨heL, hek⟩
    refine hother e heL ?_
    simp only [Bool.not_eq_true', beq_eq_false_iff_ne, ne_eq] at hek
    exact hek
  have hL1 : L1 =
      ⟨L.entries.filter (fun e => !(e.1 == lock_path cid op)) ++
        [(lock_path cid op, LockFile.record
          ⟨cid, op, mypid, now1, recipe, model, image, hostsL⟩)]⟩ := by
    have hok : create_pending_op false false mypid now1 L cid op recipe model
        image hostsL =
        Except.ok (lock_path cid op,
          (⟨L.entries.filter (fun e => !(e.1 == lock_path cid op)) ++
            [(lock_path cid op, LockFile.record
              ⟨cid, op, mypid, now1, recipe, model, image, hostsL⟩)]⟩ :
            Ledger)) := rfl
    rw [hok] at hcreate
    exact ((Prod.mk.injEq _ _ _ _).mp (Except.ok.inj hcreate)).2.symm
  have hsingle : (list_pending_ops now2 alive
      ⟨[(lock_path cid op, LockFile.record
        ⟨cid, op, mypid, now1, recipe, model, image, hostsL⟩)]⟩).1 =
      [⟨⟨cid, op, mypid, now1, recipe, model, image, hostsL⟩,
        (now2 : Int) - (now1 : Int)⟩] := by
    rw [list_pending_cons]
    simp [sweepStep, lock_path_json, halive, list_pending_ops]
  refine ⟨⟨?_, by omega⟩, ?_, ?_, ?_⟩
  · rw [hL1, list_pending_append, List.filter_append,
      sweep_out_no_match now2 alive cid op _ hfiltered, hsingle]
    simp [viewMatches]
  · have hrm : remove_pending_op false L1 cid op =
        ⟨L.entries.filter (fun e => !(e.1 == lock_path cid op))⟩ := by
      rw [hL1]
      simp [remove_pending_op, List.filter_append, List.filter_filter]
    rw [hrm]
    exact sweep_out_no_match now2 alive cid op _ hfiltered
  · exact sweep_out_alive now2 alive L.entries
  · exact sweep_keep_live now2 alive L.entries

/-- A ledger holding one live foreign record, one stale record (dead pid
999) and one corrupt file. -/
def ledgerMixed : Ledger :=
  ⟨[("other_tag.json", LockFile.record ⟨"other", "tag", 42, 3, "", "", "", []⟩),
    ("stale_tag.json", LockFile.record ⟨"stale", "tag", 999, 1, "", "", "", []⟩),
    ("bad_tag.json", LockFile.corrupt)]⟩

/-- The ledger after a successful begin of (`c/x`, `op`) on `ledgerMixed`. -/
def ledgerAfterBegin : Ledger :=
  ⟨[("other_tag.json", LockFile.record ⟨"other", "tag", 42, 3, "", "", "", []⟩),
    ("stale_tag.json", LockFile.record ⟨"stale", "tag", 999, 1, "", "", "", []⟩),
    ("bad_tag.json", LockFile.corrupt),
    ("c_x_op.json",
      LockFile.record ⟨"c/x", "op", 42, 10, "r", "m", "i", ["h1"]⟩)]⟩

/-- Witness for C6 at pid 42 (alive), begin at 10, read at 12: exactly one
matching record with elapsed 2; none after end; and the stale/corrupt
files are pruned by the read while the live foreign record survives. -/
theorem pending_ops_round_trip_witness :
    (list_pending_ops 12 (fun p => p == 42) ledgerAfterBegin).1.filter
      (viewMatches "c/x" "op") =
      [⟨⟨"c/x", "op", 42, 10, "r", "m", "i", ["h1"]⟩, 2⟩] ∧
    (list_pending_ops 12 (fun p => p == 42)
        (remove_pending_op false ledgerAfterBegin "c/x" "op")).1.filter
      (viewMatches "c/x" "op") = [] ∧
    (list_pending_ops 12 (fun p => p == 42) ledgerMixed).2.entries =
      [("other_tag.json",
        LockFile.record ⟨"other", "tag", 42, 3, "", "", "", []⟩)] := by
  have h := pending_ops_round_trip ledgerMixed ledgerAfterBegin "c_x_op.json"
    (fun p => p == 42) 42 10 12
    "c/x" "op" "r" "m" "i" ["h1"] (by decide) (by decide)
    (by decide) rfl
  exact ⟨h.1.1, h.2.1, by decide⟩

/-- Counterexample to C7 as stated: `create_pending_op` *can* propagate a
filesystem error.  `d.mkdir(parents=True, exist_ok=True)` runs outside the
`try/except OSError` (which wraps only the record write), so a failure to
create the pending directory — e.g. an unwritable cache root — escapes the
call as an exception instead of being logged and swallowed. -/
theorem pending_ops_advisory_counterexample :
    create_pending_op true false 7 5 (⟨[]⟩ : Ledger) "c/x" "op" "" "" "" [] =
      Except.error () := rfl

/-- **C7 (amended).** The ledger write is advisory once the pending
directory exists: with `mkdir` succeeding, a record-file write failure is
caught and logged and `create_pending_op` still returns the lock path
normally (with the ledger unchanged), while a directory-creation failure —
the one step outside the `try/except OSError` — propagates; and
`remove_pending_op` never raises, treating a failing unlink and a missing
record file alike as a no-op. -/
theorem pending_ops_advisory (pid now : Nat) (L : Ledger)
    (cid op recipe model image : String) (hostsL : List String) :
    create_pending_op false true pid now L cid op recipe model image hostsL =
      Except.ok (lock_path cid op, L) ∧
    create_pending_op false false pid now L cid op recipe model image hostsL =
      Except.ok (lock_path cid op,
        ledgerSet L (lock_path cid op) (LockFile.record
          ⟨cid, op, pid, now, recipe, model, image, hostsL⟩)) ∧
    (∀ b : Bool,
      create_pending_op true b pid now L cid op recipe model image hostsL =
        Except.error ()) ∧
    remove_pending_op true L cid op = L ∧
    ((∀ e ∈ L.entries, e.1 ≠ lock_path cid op) →
      remove_pending_op false L cid op = L) := by
  refine ⟨rfl, rfl, fun b => rfl, rfl, ?_⟩
  intro hmiss
  simp only [remove_pending_op, Bool.false_eq_true, if_false]
  have : L.entries.filter (fun e => !(e.1 == lock_path cid op)) = L.entries :=
    List.filter_eq_self.mpr (fun e he => by
      simp [beq_eq_false_iff_ne, hmiss e he])
  rw [this]

/-- Witness for the amended C7: a failing write still returns the lock
path normally and leaves the ledger unchanged; removing a missing record
is a no-op. -/
theorem pending_ops_advisory_witness :
    create_pending_op false true 7 5 ⟨[("a_b.json", LockFile.corrupt)]⟩
        "c/x" "op" "" "" "" [] =
      Except.ok (lock_path "c/x" "op", ⟨[("a_b.json", LockFile.corrupt)]⟩) ∧
    remove_pending_op false ⟨[("a_b.json", LockFile.corrupt)]⟩ "c/x" "op" =
      ⟨[("a_b.json", LockFile.corrupt)]⟩ := by
  have h := pending_ops_advisory 7 5 ⟨[("a_b.json", LockFile.corrupt)]⟩
    "c/x" "op" "" "" "" []
  exact ⟨h.1, h.2.2.2.2 (by decide)⟩

end SparkrunProof
